import Mathlib

/-!
# paqet: framed control codec, connection pool, window auto-tuner and telemetry

A shallow embedding of `internal/protocol/protocol.go` (the binary codec of
the control frames), of `internal/client/dial.go` (the dispatcher that picks
a transport connection and the stream opener), of `internal/client/ticker.go`
(the autoscaler), of `internal/tnet/kcp/autotune.go` (the window auto-tuner),
of `internal/conf/pcap.go` (the packet-capture configuration) and of
`internal/flog/stats.go` (the telemetry reporter), with the properties proved
about them.

Conventions of the embedding:

* a byte is a `Fin 256`; a Go `string` / `[]byte` is a `List Byte`;
* an `io.Reader` is the list of bytes still unread, and end of input is the
  empty list; a read returns its value or error together with the bytes left;
* an `io.Writer` is an append-only sink that never fails (a `bytes.Buffer`
  or an open stream), so a write is the list of bytes appended;
* Go `int` values are `Int`; conversions such as `uint8(x)` and `uint16(x)`
  are written as explicit reductions modulo `2^8` and `2^16`, and `uint64`
  counters are `Nat` with explicit reductions modulo `2^64`;
* a run-time panic is an explicit outcome, and what the surroundings decide
  (dial and probe outcomes, counter snapshots, the clock) is an argument.
-/

namespace Paqet

/-! ## Bytes and the `encoding/binary` primitives -/

/-- One octet. -/
abbrev Byte := Fin 256

/-- Go conversion `uint8(n)` of a non-negative integer: reduction modulo 256. -/
def u8 (n : Nat) : Byte := ⟨n % 256, Nat.mod_lt n (by decide)⟩

/-- Go conversion `uint16(x)` of an `int`: reduction modulo 65536. -/
def toUint16 (x : Int) : Nat := (x % 65536).toNat

/-- Errors a codec call can return. -/
inductive Err where
  /-- Value `io.EOF`: the input ended before the first byte of a field. -/
  | EOF
  /-- Value `io.ErrUnexpectedEOF`: the input ended inside a field. -/
  | ErrUnexpectedEOF
  /-- Error `unknown protocol type: 0x%02x`. -/
  | unknownType (t : Byte)
  deriving DecidableEq

/-- Function `io.ReadFull(r, buf)` with `len(buf) = n`: all `n` bytes or an error;
a failed read has consumed whatever was available. -/
def readFull (n : Nat) (r : List Byte) : Except Err (List Byte) × List Byte :=
  if n ≤ r.length then (.ok (r.take n), r.drop n)
  else if r = [] then (.error .EOF, [])
  else (.error .ErrUnexpectedEOF, [])

/-- Call `binary.Read(r, binary.BigEndian, &x)` for `x` a `uint8`. -/
def readUint8 (r : List Byte) : Except Err Byte × List Byte :=
  match r with
  | [] => (.error .EOF, [])
  | b :: r1 => (.ok b, r1)

/-- Call `binary.Read(r, binary.BigEndian, &x)` for `x` a `uint16`. -/
def readUint16 (r : List Byte) : Except Err Nat × List Byte :=
  match r with
  | [] => (.error .EOF, [])
  | [_] => (.error .ErrUnexpectedEOF, [])
  | hi :: lo :: r1 => (.ok (hi.val * 256 + lo.val), r1)

/-- Call `binary.Write(w, binary.BigEndian, v)` for `v` a `uint16`: high byte first. -/
def putUint16 (v : Nat) : List Byte := [u8 (v / 256), u8 v]

/-! ## Data model (`conf.TCPF`, `tnet.Addr`, `protocol.Proto`) -/

/-- Struct `conf.TCPF`: the nine TCP flags. -/
structure TCPF where
  FIN : Bool := false
  SYN : Bool := false
  RST : Bool := false
  PSH : Bool := false
  ACK : Bool := false
  URG : Bool := false
  ECE : Bool := false
  CWR : Bool := false
  NS : Bool := false
  deriving DecidableEq

/-- Struct `tnet.Addr`: a host (the bytes of the Go string) and an `int` port. -/
structure Addr where
  Host : List Byte
  Port : Int
  deriving DecidableEq

/-- Type `PType = byte`. -/
abbrev PType := Byte

def PPING : PType := 0x01
def PPONG : PType := 0x02
def PTCPF : PType := 0x03
def PTCP : PType := 0x04
def PUDP : PType := 0x05

/-- Struct `Proto`; field `Typ` is the source field `Type` (a reserved word here);
`Addr` is a pointer, `none` is the nil pointer. -/
structure Proto where
  Typ : PType
  Addr : Option Addr
  TCPF : List TCPF
  deriving DecidableEq

/-- The zero value `var p Proto`. -/
def Proto.zero : Proto := ⟨0, none, []⟩

/-! ## The codec -/

/-- Function `encodeTCPF`: packs TCP flags into a uint16 bitmask. -/
def encodeTCPF (f : TCPF) : Nat :=
  let flags := 0
  let flags := if f.FIN then flags ||| (1 <<< 0) else flags
  let flags := if f.SYN then flags ||| (1 <<< 1) else flags
  let flags := if f.RST then flags ||| (1 <<< 2) else flags
  let flags := if f.PSH then flags ||| (1 <<< 3) else flags
  let flags := if f.ACK then flags ||| (1 <<< 4) else flags
  let flags := if f.URG then flags ||| (1 <<< 5) else flags
  let flags := if f.ECE then flags ||| (1 <<< 6) else flags
  let flags := if f.CWR then flags ||| (1 <<< 7) else flags
  let flags := if f.NS then flags ||| (1 <<< 8) else flags
  flags

/-- Function `decodeTCPF`: unpacks a uint16 bitmask into TCP flags. -/
def decodeTCPF (flags : Nat) : TCPF :=
  { FIN := flags &&& (1 <<< 0) != 0
    SYN := flags &&& (1 <<< 1) != 0
    RST := flags &&& (1 <<< 2) != 0
    PSH := flags &&& (1 <<< 3) != 0
    ACK := flags &&& (1 <<< 4) != 0
    URG := flags &&& (1 <<< 5) != 0
    ECE := flags &&& (1 <<< 6) != 0
    CWR := flags &&& (1 <<< 7) != 0
    NS := flags &&& (1 <<< 8) != 0 }

/-- Function `writeAddr`: the bytes appended for an address.
Format: `[1 byte present][1 byte hostLen][host bytes][2 byte port]`. -/
def writeAddr (addr : Option Addr) : List Byte :=
  match addr with
  | none => [u8 0]
  | some a =>
    let hostBytes := a.Host
    let hostLen := u8 hostBytes.length
    [u8 1] ++ [hostLen] ++ (if hostLen.val > 0 then hostBytes else []) ++
      putUint16 (toUint16 a.Port)

/-- Function `readAddr`: the address read (`none` is the nil pointer) or the error,
and the bytes left. -/
def readAddr (r : List Byte) : Except Err (Option Addr) × List Byte :=
  match readUint8 r with
  | (.error e, r1) => (.error e, r1)
  | (.ok present, r1) =>
    if present.val = 0 then (.ok none, r1)
    else
      match readUint8 r1 with
      | (.error e, r2) => (.error e, r2)
      | (.ok hostLen, r2) =>
        let hostRes : Except Err (List Byte) × List Byte :=
          if hostLen.val > 0 then readFull hostLen.val r2 else (.ok [], r2)
        match hostRes with
        | (.error e, r3) => (.error e, r3)
        | (.ok host, r3) =>
          match readUint16 r3 with
          | (.error e, r4) => (.error e, r4)
          | (.ok port, r4) => (.ok (some ⟨host, (port : Int)⟩), r4)

/-- What a call of `Proto.Write` leaves behind: the bytes appended to the
writer and the error returned (`none` is `nil`). -/
structure WriteResult where
  out : List Byte
  err : Option Err
  deriving DecidableEq

/-- The loop `for _, f := range p.TCPF` of `Proto.Write`: one big-endian word
per flag set. -/
def writeFlags : List TCPF → List Byte
  | [] => []
  | f :: fs => putUint16 (encodeTCPF f) ++ writeFlags fs

/-- Method `Proto.Write`. -/
def Proto.Write (p : Proto) : WriteResult :=
  let out := [p.Typ]
  if p.Typ = PPING ∨ p.Typ = PPONG then ⟨out, none⟩
  else if p.Typ = PTCPF then
    let count := u8 p.TCPF.length
    ⟨out ++ [count] ++ writeFlags p.TCPF, none⟩
  else if p.Typ = PTCP ∨ p.Typ = PUDP then ⟨out ++ writeAddr p.Addr, none⟩
  else ⟨out, some (.unknownType p.Typ)⟩

/-- The loop `for i := range count` of `Proto.Read`, entered at index `i` with
`n` iterations to go: `arr` is the slice `p.TCPF` (allocated with `count`
zero entries before the loop) and a failed read returns at once. -/
def readFlags (i : Nat) : Nat → List TCPF → List Byte → List TCPF × List Byte × Option Err
  | 0, arr, r => (arr, r, none)
  | n + 1, arr, r =>
    match readUint16 r with
    | (.error e, r1) => (arr, r1, some e)
    | (.ok flags, r1) => readFlags (i + 1) n (arr.set i (decodeTCPF flags)) r1

/-- What a call of `Proto.Read` leaves behind: the receiver, the bytes left
unread and the error returned (`none` is `nil`). -/
structure ReadResult where
  p : Proto
  rest : List Byte
  err : Option Err
  deriving DecidableEq

/-- Method `Proto.Read` on the receiver `p`. -/
def Proto.Read (p : Proto) (r : List Byte) : ReadResult :=
  match readUint8 r with
  | (.error e, r1) => ⟨p, r1, some e⟩
  | (.ok t, r1) =>
    let p := { p with Typ := t }
    if t = PPING ∨ t = PPONG then ⟨p, r1, none⟩
    else if t = PTCPF then
      match readUint8 r1 with
      | (.error e, r2) => ⟨p, r2, some e⟩
      | (.ok count, r2) =>
        match readFlags 0 count.val (List.replicate count.val {}) r2 with
        | (arr, r3, e) => ⟨{ p with TCPF := arr }, r3, e⟩
    else if t = PTCP ∨ t = PUDP then
      match readAddr r1 with
      | (.error e, r2) => ⟨p, r2, some e⟩
      | (.ok addr, r2) => ⟨{ p with Addr := addr }, r2, none⟩
    else ⟨p, r1, some (.unknownType t)⟩

/-! ## Valid frames and short reads -/

/-- An address a frame can carry: the nil pointer, or a host of at most 255
bytes with a port in `0..65535`. -/
def ValidAddr : Option Addr → Prop
  | none => True
  | some a => a.Host.length ≤ 255 ∧ 0 ≤ a.Port ∧ a.Port ≤ 65535

instance (a : Option Addr) : Decidable (ValidAddr a) := by
  cases a <;> unfold ValidAddr <;> infer_instance

/-- A valid frame: PING or PONG with no payload, TCPF with at most 255 flag
sets, TCP or UDP with a valid address; the fields its type does not carry
hold their zero value. -/
def ValidFrame (f : Proto) : Prop :=
  ((f.Typ = PPING ∨ f.Typ = PPONG) ∧ f.Addr = none ∧ f.TCPF = []) ∨
  (f.Typ = PTCPF ∧ f.TCPF.length ≤ 255 ∧ f.Addr = none) ∨
  ((f.Typ = PTCP ∨ f.Typ = PUDP) ∧ ValidAddr f.Addr ∧ f.TCPF = [])

instance (f : Proto) : Decidable (ValidFrame f) := by
  unfold ValidFrame; infer_instance

/-- The errors of a premature end of input (`io.EOF`, `io.ErrUnexpectedEOF`). -/
def Err.isShortRead : Err → Bool
  | .EOF => true
  | .ErrUnexpectedEOF => true
  | .unknownType _ => false

/-- The returned error is non-nil and is a premature end of input. -/
def ShortErr (e : Option Err) : Prop := ∃ x, e = some x ∧ x.isShortRead = true

/-- The bytes of an ASCII string, as `[]byte(s)` gives them. -/
def asciiBytes (s : String) : List Byte := s.toList.map (fun c => u8 c.toNat)

/-! ## The dispatcher (`internal/client/dial.go`) -/

/-- Interface `tnet.Conn` as the dispatcher observes one connection: its
identity, what `NumStreams()` returns, whether `Ping(false)` returns an
error, and whether `Close()` has been called on it. -/
structure Conn where
  id : Nat
  numStreams : Int
  pingFails : Bool
  closed : Bool
  deriving DecidableEq

/-- Modelled from the spec: the struct `timedConn` (its declaration is not among
the sources). A TimedConn holds `conn`, the handle to the live transport
connection or absent (`none`, the nil interface), and `expire`, the wall-clock
deadline, here in seconds. -/
structure timedConn where
  conn : Option Conn
  expire : Int
  deriving DecidableEq

/-- Modelled from the spec: the type `iterator.Iterator` (its declaration is not
among the sources). `Items` is the ordered sequence of TimedConn and `cursor`
is `rr_cursor`, a monotonically advancing index into `Items`, taken modulo the
current length. -/
structure Iterator where
  Items : List timedConn
  cursor : Nat
  deriving DecidableEq

/-- Modelled from the spec: the method `Iterator.Next` (not among the sources),
"pick the next item via round-robin (`rr_cursor` advanced modulo
`len(items)`)": the item at `cursor` modulo the length, with its index, and
the iterator with the cursor advanced. An empty pool has no item to pick. -/
def Iterator.Next (it : Iterator) : Option (Nat × timedConn × Iterator) :=
  match it.Items[it.cursor % it.Items.length]? with
  | none => none
  | some tc => some (it.cursor % it.Items.length, tc, { it with cursor := it.cursor + 1 })

/-- The largest `int`, `int(^uint(0) >> 1)`, on a 64-bit platform. -/
def maxInt : Int := 2 ^ 63 - 1

/-- The selection loop of `newConn`, `for _, tc := range c.iter.Items`, entered
at index `i`: `best` is `bestTC` (`none` is nil), kept with its index, and
`bestStreams` the smallest count seen. -/
def leastLoaded : List timedConn → Nat → Option (Nat × timedConn) → Int →
    Option (Nat × timedConn) × Int
  | [], _, best, bestStreams => (best, bestStreams)
  | tc :: rest, i, best, bestStreams =>
    match tc.conn with
    | none => leastLoaded rest (i + 1) best bestStreams
    | some c =>
      let n := c.numStreams
      if n < bestStreams then leastLoaded rest (i + 1) (some (i, tc)) n
      else leastLoaded rest (i + 1) best bestStreams

/-- What the surroundings decide during one `newConn` call: `time.Now()` in
seconds and the outcome of `bestTC.createConn()` (`none` is an error). -/
structure DialEnv where
  now : Int
  created : Option Conn
  deriving DecidableEq

/-- Run-time panics of the dispatcher. -/
inductive GoPanic where
  /-- A method call through a nil interface value. -/
  | nilDereference
  /-- The round-robin pick on a pool without items. -/
  | emptyPool
  /-- An index expression outside the bounds of a slice. -/
  | indexOutOfRange
  deriving DecidableEq

/-- What a returning `newConn` call leaves behind: the pool, the index of the
item chosen as `bestTC`, the handle returned (`none` is nil; the error
returned is always nil), the connections `Close()` was called on and the
number of calls of `bestTC.createConn()`. -/
structure NewConnResult where
  iter : Iterator
  chosen : Nat
  conn : Option Conn
  closedConns : List Conn
  creates : Nat
  deriving DecidableEq

/-- Method `Client.newConn`, run under the pool mutex. The statement
`go bestTC.sendTCPF(bestTC.conn)` starts a fire-and-forget goroutine and is
left out. -/
def newConn (env : DialEnv) (it : Iterator) : Except GoPanic NewConnResult :=
  let pick : Option (Nat × timedConn × Iterator) :=
    match (leastLoaded it.Items 0 none maxInt).1 with
    | some (i, tc) => some (i, tc, it)
    | none => it.Next
  match pick with
  | none => .error .emptyPool
  | some (i, bestTC, it1) =>
    let autoExpire : Int := 300
    match bestTC.conn with
    | none => .error .nilDereference
    | some c =>
      if c.pingFails then
        let old : Conn := { c with closed := true }
        let conn1 : Option Conn :=
          match env.created with
          | some conn => some conn
          | none => some old
        let tc1 : timedConn := { conn := conn1, expire := env.now + autoExpire }
        .ok { iter := { it1 with Items := it1.Items.set i tc1 }, chosen := i,
              conn := conn1, closedConns := [old], creates := 1 }
      else
        .ok { iter := it1, chosen := i, conn := some c, closedConns := [], creates := 0 }

/-! ## The stream opener (`Client.newStrm` in `internal/client/dial.go`) -/

/-- What the surroundings decide during one `newStrm` call, per attempt `i`:
the pool as `newConn` finds it when it takes the mutex (other goroutines use
the pool between two attempts), the surroundings of that `newConn` call, and
the outcome of `conn.OpenStrm()` on the handle returned, a stream identifier
or `none` for an error. -/
structure StrmEnv where
  pool : Nat → Iterator
  dial : Nat → DialEnv
  openStrm : Nat → Conn → Option Nat

/-- The error `failed to open stream after %d retries` with its count. -/
structure StrmErr where
  retries : Nat
  deriving DecidableEq

/-- What a returning `newStrm` call leaves behind: the stream (`none` is nil),
the error (`none` is nil), the durations slept in milliseconds, in order, and
the number of attempts made. -/
structure NewStrmResult where
  strm : Option Nat
  err : Option StrmErr
  sleeps : List Nat
  attempts : Nat
  deriving DecidableEq

/-- Constant `maxRetries` of `newStrm`. -/
def maxRetries : Nat := 5

/-- How one pass through the loop body of `newStrm` ends. The branch
`if err != nil` after `c.newConn()` is never taken, since `newConn` returns a
nil error whenever it returns. -/
inductive Attempt where
  /-- The call `c.newConn()` panics, or `OpenStrm` is called through a nil handle. -/
  | panicked (p : GoPanic)
  /-- The call `conn.OpenStrm()` returns an error. -/
  | openFailed
  /-- The call `conn.OpenStrm()` returns a stream. -/
  | opened (strm : Nat)
  deriving DecidableEq

/-- The calls `c.newConn()` and `conn.OpenStrm()` of attempt `i`. -/
def attempt (env : StrmEnv) (i : Nat) : Attempt :=
  match newConn (env.dial i) (env.pool i) with
  | .error p => .panicked p
  | .ok res =>
    match res.conn with
    | none => .panicked .nilDereference
    | some conn =>
      match env.openStrm i conn with
      | none => .openFailed
      | some strm => .opened strm

/-- The loop `for i := range maxRetries` of `newStrm`, entered at attempt `i`
with `n` attempts to go; a failed attempt sleeps
`time.Duration(1<<i) * 100 * time.Millisecond`. -/
def newStrmLoop (env : StrmEnv) : Nat → Nat → List Nat → Except GoPanic NewStrmResult
  | i, 0, sleeps => .ok ⟨none, some ⟨maxRetries⟩, sleeps, i⟩
  | i, n + 1, sleeps =>
    match attempt env i with
    | .panicked p => .error p
    | .openFailed => newStrmLoop env (i + 1) n (sleeps ++ [(1 <<< i) * 100])
    | .opened strm => .ok ⟨some strm, none, sleeps, i + 1⟩

/-- Method `Client.newStrm`. -/
def newStrm (env : StrmEnv) : Except GoPanic NewStrmResult :=
  newStrmLoop env 0 maxRetries []

/-! ## The autoscaler (`internal/client/client.go`, `internal/client/ticker.go`) -/

/-- Struct `Client`, the fields the autoscaler uses: the pool and its bounds. -/
structure Client where
  iter : Iterator
  minConns : Int
  maxConns : Int
  deriving DecidableEq

/-- Function `New`: an empty pool with `minConns` the configured
`cfg.Transport.Conn` and `maxConns` twice that. -/
def New (transportConn : Int) : Client :=
  { iter := ⟨[], 0⟩, minConns := transportConn, maxConns := transportConn * 2 }

/-- Constant `maxStreamsPerConn`. -/
def maxStreamsPerConn : Int := 64

/-- The first loop of `scaleConnections`: `allOverloaded` stays true unless
some present connection has fewer than `maxStreamsPerConn` streams. -/
def allOverloaded : List timedConn → Bool
  | [] => true
  | tc :: rest =>
    match tc.conn with
    | some c => if c.numStreams < maxStreamsPerConn then false else allOverloaded rest
    | none => allOverloaded rest

/-- The test `tc.conn != nil && tc.conn.NumStreams() == 0` of the scale-down loop. -/
def isIdle (tc : timedConn) : Bool :=
  match tc.conn with
  | some c => decide (c.numStreams = 0)
  | none => false

/-- How the scale-down loop ends. -/
inductive Scan where
  /-- The item at this index is idle: it is closed and removed. -/
  | found (i : Nat)
  /-- The loop ran below `minConns` without finding an idle item. -/
  | notFound
  /-- The loop indexed `c.iter.Items` out of range. -/
  | outOfRange
  deriving DecidableEq

/-- The loop `for i := numConns - 1; i >= c.minConns; i--` of
`scaleConnections`, entered with `i = k - 1`: it stops at the first idle item.
With `k = 0` the index is `-1`, and the body, if entered, indexes out of range. -/
def scanIdle (items : List timedConn) (minConns : Int) : Nat → Scan
  | 0 => if (-1 : Int) ≥ minConns then .outOfRange else .notFound
  | k + 1 =>
    if (k : Int) ≥ minConns then
      match items[k]? with
      | none => .outOfRange
      | some tc => if isIdle tc then .found k else scanIdle items minConns k
    else .notFound

/-- What the surroundings decide during one autoscaler tick: the outcome of
`newTimedConn(ctx, c.cfg)`, a new TimedConn or `none` for an error. -/
structure ScaleEnv where
  dial : Option timedConn
  deriving DecidableEq

/-- What one `scaleConnections` call leaves behind: the client, whether
`newTimedConn` was called, the index of the item closed and removed, if any,
and the panic that ended the call, if any. -/
structure ScaleResult where
  client : Client
  dialed : Bool
  removed : Option Nat
  panic : Option GoPanic
  deriving DecidableEq

/-- The scale-down part of `scaleConnections`, run on the pool `items` with
`numConns` the length read at the start of the tick. -/
def scaleDown (c : Client) (items : List timedConn) (numConns : Nat) (dialed : Bool) :
    ScaleResult :=
  if (numConns : Int) > c.minConns then
    match scanIdle items c.minConns numConns with
    | .found i =>
      { client := { c with iter := { c.iter with Items := items.take i ++ items.drop (i + 1) } },
        dialed := dialed, removed := some i, panic := none }
    | .notFound =>
      { client := { c with iter := { c.iter with Items := items } },
        dialed := dialed, removed := none, panic := none }
    | .outOfRange =>
      { client := { c with iter := { c.iter with Items := items } },
        dialed := dialed, removed := none, panic := some .indexOutOfRange }
  else
    { client := { c with iter := { c.iter with Items := items } },
      dialed := dialed, removed := none, panic := none }

/-- Method `Client.scaleConnections`, run under the pool mutex. Starting the
auto-tuner of a new connection (`go at.Run(ctx)`) is left out. -/
def scaleConnections (env : ScaleEnv) (c : Client) : ScaleResult :=
  let numConns := c.iter.Items.length
  if allOverloaded c.iter.Items ∧ (numConns : Int) < c.maxConns then
    match env.dial with
    | none => { client := c, dialed := true, removed := none, panic := none }
    | some tc => scaleDown c (c.iter.Items ++ [tc]) numConns true
  else scaleDown c c.iter.Items numConns false

/-! ## The window auto-tuner (`internal/tnet/kcp/autotune.go`)

Values of type `float64` are written as exact rationals. That is what the
code computes on the range `Snmp.InFloatRange` of the counters (both below
`2^50`) and `AutoTuner.InFloatRange` of the windows (both below `2^51` in
absolute value), and the theorems on the shrink, the growth and the idle tick
assume that range:

* an integer below `2^53` in absolute value converts to `float64` unrounded;
* for a window `cur` with `|cur| < 2^51` the products `float64(cur) * 0.75`
  and `float64(cur) * 1.5` are `3 * cur / 4` and `3 * cur / 2`, with
  `|3 * cur| < 2^53`: they are `float64` values, so the product is not rounded
  and `int(_)` truncates a number that fits an `int`;
* for counters below `2^50` with `OutSegs > 0` the quotient is rounded once.
  Rounding is monotone and the constant `0.05` is the rounding of `1/20`, so a
  rate of at most `1/20` gives a quotient that is not above the constant; a
  rate above `1/20` is above it by at least `1 / (20 * OutSegs) > 2^-55`, four
  times the spacing `2^-57` of `float64` around `0.05`, so the rounded
  quotient is above the constant.

Outside that range the code can take another branch or compute another window
than the definitions below. What is proved without that range, on the clamp,
the baselines and the push, holds whatever the rate test and the products
give. -/

/-- Struct `AutoTuner`, without its connection and mutex; `lastSent` and
`lastRecv` are `uint64`. -/
structure AutoTuner where
  maxSnd : Int
  maxRcv : Int
  curSnd : Int
  curRcv : Int
  lastSent : Nat
  lastRecv : Nat
  deriving DecidableEq

/-- The counters of `kcp.DefaultSnmp.Copy()` the tuner reads, all `uint64`. -/
structure Snmp where
  BytesSent : Nat
  BytesReceived : Nat
  RetransSegs : Nat
  OutSegs : Nat
  deriving DecidableEq

/-- Constant `minWindow`. -/
def minWindow : Int := 128

/-- Constant `growFactor`. -/
def growFactor : ℚ := 1.5

/-- Constant `shrinkFactor`. -/
def shrinkFactor : ℚ := 0.75

/-- Go conversion `int(x)` of a float: truncation toward zero. It is applied
to the exact product; within `AutoTuner.InFloatRange` that is the `float64`
product and the result fits an `int`. -/
def truncToInt (x : ℚ) : Int := if 0 ≤ x then ⌊x⌋ else ⌈x⌉

/-- Subtraction of `uint64` values, wrapping modulo `2^64`. -/
def subU64 (a b : Nat) : Nat := (a % 2 ^ 64 + (2 ^ 64 - b % 2 ^ 64)) % 2 ^ 64

/-- Addition of `uint64` values, wrapping modulo `2^64`. -/
def addU64 (a b : Nat) : Nat := (a + b) % 2 ^ 64

/-- Function `clamp`. -/
def clamp (v min max : Int) : Int :=
  if v < min then min
  else if v > max then max
  else v

/-- Function `NewAutoTuner`: the tuner and the pair passed to
`conn.SetWindowSize`. The division `maxSnd / 2` of Go truncates toward zero. -/
def NewAutoTuner (maxSnd maxRcv : Int) : AutoTuner × (Int × Int) :=
  let startSnd := Int.tdiv maxSnd 2
  let startRcv := Int.tdiv maxRcv 2
  let startSnd := if startSnd < minWindow then minWindow else startSnd
  let startRcv := if startRcv < minWindow then minWindow else startRcv
  ({ maxSnd := maxSnd, maxRcv := maxRcv, curSnd := startSnd, curRcv := startRcv,
     lastSent := 0, lastRecv := 0 }, (startSnd, startRcv))

/-- The value `totalDelta` of `tune`: the bytes sent and received since the
last tick. -/
def totalDelta (t : AutoTuner) (snap : Snmp) : Nat :=
  addU64 (subU64 snap.BytesSent t.lastSent) (subU64 snap.BytesReceived t.lastRecv)

/-- The value `retransRate` of `tune`: the global retransmission rate, 0 when
no segment was sent. The quotient is the exact one; within
`Snmp.InFloatRange` its comparison with `0.05` is that of the `float64`
quotient. -/
def retransRate (snap : Snmp) : ℚ :=
  if snap.OutSegs > 0 then (snap.RetransSegs : ℚ) / (snap.OutSegs : ℚ) else 0

/-- What one `tune` call leaves behind: the tuner, the two windows as computed
before the clamp, and the pair passed to `conn.SetWindowSize`, if it is called. -/
structure TuneResult where
  tuner : AutoTuner
  rawSnd : Int
  rawRcv : Int
  pushed : Option (Int × Int)
  deriving DecidableEq

/-- Method `AutoTuner.tune` on the counter snapshot `snap`, with the rate and
the products computed exactly: the code for a snapshot within
`Snmp.InFloatRange` and a tuner within `AutoTuner.InFloatRange`. The clamp,
the baselines and the test for a push do not depend on how they are
computed. -/
def AutoTuner.tune (t : AutoTuner) (snap : Snmp) : TuneResult :=
  let total := totalDelta t snap
  let rate := retransRate snap
  let oldSnd := t.curSnd
  let oldRcv := t.curRcv
  let raw : Int × Int :=
    if rate > 0.05 then
      (truncToInt ((t.curSnd : ℚ) * shrinkFactor), truncToInt ((t.curRcv : ℚ) * shrinkFactor))
    else if total > 0 then
      (truncToInt ((t.curSnd : ℚ) * growFactor), truncToInt ((t.curRcv : ℚ) * growFactor))
    else (t.curSnd, t.curRcv)
  let curSnd := clamp raw.1 minWindow t.maxSnd
  let curRcv := clamp raw.2 minWindow t.maxRcv
  { tuner := { t with lastSent := snap.BytesSent, lastRecv := snap.BytesReceived,
                       curSnd := curSnd, curRcv := curRcv }
    rawSnd := raw.1
    rawRcv := raw.2
    pushed := if curSnd ≠ oldSnd ∨ curRcv ≠ oldRcv then some (curSnd, curRcv) else none }

/-- The tuner after the ticks of `Run` on the snapshots `snaps`, in order. -/
def AutoTuner.run (t : AutoTuner) (snaps : List Snmp) : AutoTuner :=
  snaps.foldl (fun s snap => (s.tune snap).tuner) t

/-- The windows of a tuner are within their bounds. -/
def AutoTuner.InBounds (t : AutoTuner) : Prop :=
  minWindow ≤ t.curSnd ∧ t.curSnd ≤ t.maxSnd ∧ minWindow ≤ t.curRcv ∧ t.curRcv ≤ t.maxRcv

instance (t : AutoTuner) : Decidable t.InBounds := by
  unfold AutoTuner.InBounds; infer_instance

/-- The segment counters are below `2^50`: the range on which the test
`float64(RetransSegs) / float64(OutSegs) > 0.05` of `tune` decides as the
exact quotient does. -/
def Snmp.InFloatRange (snap : Snmp) : Prop :=
  snap.RetransSegs < 2 ^ 50 ∧ snap.OutSegs < 2 ^ 50

instance (snap : Snmp) : Decidable snap.InFloatRange := by
  unfold Snmp.InFloatRange; infer_instance

/-- Both windows are below `2^51` in absolute value: the range on which
`int(float64(cur) * shrinkFactor)` and `int(float64(cur) * growFactor)` are
the truncations of the exact products. -/
def AutoTuner.InFloatRange (t : AutoTuner) : Prop :=
  -(2 ^ 51) < t.curSnd ∧ t.curSnd < 2 ^ 51 ∧ -(2 ^ 51) < t.curRcv ∧ t.curRcv < 2 ^ 51

instance (t : AutoTuner) : Decidable t.InFloatRange := by
  unfold AutoTuner.InFloatRange; infer_instance

/-! ## The packet-capture configuration (`internal/conf/pcap.go`) -/

/-- Struct `PCAP`. -/
structure PCAP where
  Sockbuf : Int
  Promisc : Bool
  SnapLen : Int
  DSCP : Int
  deriving DecidableEq

/-- The errors `validate` can report, one per message. -/
inductive PCAPError where
  /-- Message `PCAP sockbuf must be >= 1024 bytes`. -/
  | sockbufTooSmall
  /-- Message `PCAP sockbuf too large (max 100MB)`. -/
  | sockbufTooLarge
  /-- Message `PCAP snaplen must be between 256-65536`. -/
  | snaplenRange
  /-- Message `PCAP DSCP must be between 0-63`. -/
  | dscpRange
  deriving DecidableEq

/-- Method `PCAP.setDefaults`. -/
def PCAP.setDefaults (p : PCAP) (role : String) : PCAP :=
  let p :=
    if p.Sockbuf = 0 then
      if role = "server" then { p with Sockbuf := 32 * 1024 * 1024 }
      else { p with Sockbuf := 16 * 1024 * 1024 }
    else p
  let p := if p.SnapLen = 0 then { p with SnapLen := 1600 } else p
  p

/-- An `int` result on a 64-bit platform: the value reduced to the range of
`int`, two's complement. -/
def wrapInt (x : Int) : Int := (x + 2 ^ 63) % 2 ^ 64 - 2 ^ 63

/-- The test of `validate` that only logs a warning: the socket buffer is not
a power of two, `p.Sockbuf&(p.Sockbuf-1) != 0`; the subtraction wraps at the
smallest `int`. -/
def PCAP.warnsNotPowerOfTwo (p : PCAP) : Bool :=
  Int.land p.Sockbuf (wrapInt (p.Sockbuf - 1)) != 0

/-- Method `PCAP.validate`: the errors returned, in order. The warning it may
log is `PCAP.warnsNotPowerOfTwo`. -/
def PCAP.validate (p : PCAP) : List PCAPError :=
  let errors : List PCAPError := []
  let errors := if p.Sockbuf < 1024 then errors ++ [.sockbufTooSmall] else errors
  let errors := if p.Sockbuf > 100 * 1024 * 1024 then errors ++ [.sockbufTooLarge] else errors
  let errors :=
    if p.SnapLen < 256 ∨ p.SnapLen > 65536 then errors ++ [.snaplenRange] else errors
  let errors := if p.DSCP < 0 ∨ p.DSCP > 63 then errors ++ [.dscpRange] else errors
  errors

/-! ## The telemetry reporter (`internal/flog/stats.go`)

The text of a log line is left out: a line is the rule that writes it. -/

/-- Struct `kcp.Snmp`, the counters the reporter reads, all `uint64`. -/
structure KcpSnmp where
  InBytes : Nat
  OutBytes : Nat
  InPkts : Nat
  OutPkts : Nat
  RetransSegs : Nat
  OutSegs : Nat
  LostSegs : Nat
  InErrs : Nat
  RingBufferSndQueue : Nat
  RingBufferRcvQueue : Nat
  RingBufferSndBuffer : Nat
  FECRecovered : Nat
  FECErrs : Nat
  FECParityShards : Nat
  deriving DecidableEq

/-- Struct `ConnStats`: per-connection diagnostics. -/
structure ConnStats where
  Remote : String
  Streams : Int
  deriving DecidableEq

/-- Struct `StatsReporter`, the fields `report` reads and writes; `prevTime` is
in seconds, and the callback `connFn` is part of the surroundings. -/
structure StatsReporter where
  tick : Nat
  prevSnmp : KcpSnmp
  prevTime : ℚ
  prevGoroutines : Int
  deriving DecidableEq

/-- The labels of the `[ALERT] BOTTLENECK` lines. -/
inductive Alert where
  | packet_loss
  | pcap_drops
  | send_saturated
  | recv_saturated
  | read_errors
  | throughput_collapse
  | stream_overload
  | goroutine_leak
  deriving DecidableEq

/-- One call of `logf`. -/
inductive LogLine where
  /-- Line `[STATS] kcp: ... sndQ %d rcvQ %d sndBuf %d`, with its last three values. -/
  | statsKcp (sndQ rcvQ sndBuf : Nat)
  /-- Line `[STATS] fec: ...`. -/
  | statsFec
  /-- Line `[STATS] conn: ...`. -/
  | statsConn
  /-- Line `[STATS] mem: ...`. -/
  | statsMem
  /-- Line `[ALERT] BOTTLENECK: <label> ...`. -/
  | alert (label : Alert)
  deriving DecidableEq

/-- What the surroundings decide during one `report` call: `time.Now()` in
seconds, `kcp.DefaultSnmp.Copy()`, what `s.connFn()` returns (`none` when
`s.connFn` is nil) and `runtime.NumGoroutine()`. -/
structure ReportEnv where
  now : ℚ
  curr : KcpSnmp
  conns : Option (List ConnStats)
  goroutines : Int
  deriving DecidableEq

/-- The statement `if c { logf(line) }` after the lines `log`. -/
def logIf (c : Prop) [Decidable c] (line : LogLine) (log : List LogLine) : List LogLine :=
  if c then log ++ [line] else log

/-- The loop `for _, c := range conns` of `report`: the sum of the stream counts. -/
def sumStreams : List ConnStats → Int
  | [] => 0
  | c :: rest => c.Streams + sumStreams rest

/-- Method `StatsReporter.report`: the reporter after the call and the lines
logged, in order. -/
def StatsReporter.report (s : StatsReporter) (env : ReportEnv) :
    StatsReporter × List LogLine :=
  let tick := (s.tick + 1) % 2 ^ 64
  let now := env.now
  let elapsed := now - s.prevTime
  let elapsed := if elapsed < 1 then 1 else elapsed
  let curr := env.curr
  let prev := s.prevSnmp
  let outBytes := subU64 curr.OutBytes prev.OutBytes
  let retrans := subU64 curr.RetransSegs prev.RetransSegs
  let outSegs := subU64 curr.OutSegs prev.OutSegs
  let lost := subU64 curr.LostSegs prev.LostSegs
  let inErrs := subU64 curr.InErrs prev.InErrs
  let retransRate : ℚ := if outSegs > 0 then (retrans : ℚ) / (outSegs : ℚ) * 100 else 0
  let sndQ := curr.RingBufferSndQueue
  let rcvQ := curr.RingBufferRcvQueue
  let sndBuf := curr.RingBufferSndBuffer
  let log := [LogLine.statsKcp sndQ rcvQ sndBuf]
  let fecParity := subU64 curr.FECParityShards prev.FECParityShards
  let log := logIf (fecParity > 0) .statsFec log
  let totalStreams : Int :=
    match env.conns with
    | some conns => sumStreams conns
    | none => 0
  let numConns : Nat :=
    match env.conns with
    | some conns => conns.length
    | none => 0
  let log := logIf (env.conns.isSome ∧ numConns > 0) .statsConn log
  let log := logIf (retransRate > 5) (.alert .packet_loss) log
  let log := logIf (lost > 100) (.alert .pcap_drops) log
  let log := logIf (sndBuf > 512) (.alert .send_saturated) log
  let log := logIf (rcvQ > 256) (.alert .recv_saturated) log
  let log := logIf (inErrs > 0) (.alert .read_errors) log
  let outBytesPerSec : ℚ := (outBytes : ℚ) / elapsed
  let log :=
    logIf (totalStreams > 0 ∧ outBytesPerSec < 100 * 1024 ∧ outBytesPerSec > 0)
      (.alert .throughput_collapse) log
  let log :=
    logIf (numConns > 0 ∧ (totalStreams : ℚ) / (numConns : ℚ) > 32)
      (.alert .stream_overload) log
  let goroutines := env.goroutines
  let log := logIf (tick % 5 = 0) .statsMem log
  let log :=
    logIf (s.prevGoroutines > 0 ∧ goroutines > 100 ∧
        ((goroutines - s.prevGoroutines : Int) : ℚ) / (s.prevGoroutines : ℚ) * 100 > 20)
      (.alert .goroutine_leak) log
  ({ tick := tick, prevSnmp := curr, prevTime := now, prevGoroutines := goroutines }, log)

/-! ## Example values -/

/-- An example of the surroundings of `newStrm`: a pool of one live connection,
on which opening a stream fails in attempts 0 and 1 and gives stream 7 after. -/
def exampleStrmEnv : StrmEnv :=
  { pool := fun _ => ⟨[⟨some ⟨0, 3, false, false⟩, 0⟩], 0⟩
    dial := fun _ => ⟨0, none⟩
    openStrm := fun i _ => if i < 2 then none else some 7 }

/-- An example TimedConn of the autoscaler, with a live connection of `n` streams. -/
def liveConn (n : Int) : timedConn := ⟨some ⟨0, n, false, false⟩, 0⟩

/-- A counter snapshot with every counter at zero. -/
def zeroSnmp : KcpSnmp := ⟨0, 0, 0, 0, 0, 0, 0, 0, 0, 0, 0, 0, 0, 0⟩

/-- An example reporter, before its first tick. -/
def exampleReporter : StatsReporter := ⟨0, zeroSnmp, 0, 10⟩

/-! ## Lemmas on the primitives -/

theorem u8_val (n : Nat) : (u8 n).val = n % 256 := rfl

theorem u8_val_of_le {n : Nat} (h : n ≤ 255) : (u8 n).val = n := by
  rw [u8_val]; omega

theorem readUint16_putUint16 (v : Nat) (hv : v < 65536) (rest : List Byte) :
    readUint16 (putUint16 v ++ rest) = (.ok v, rest) := by
  simp only [putUint16, List.cons_append, List.nil_append, readUint16, u8_val]
  congr 2
  omega

theorem decodeTCPF_encodeTCPF (f : TCPF) : decodeTCPF (encodeTCPF f) = f := by
  rcases f with ⟨a, b, c, d, e, f, g, h, i⟩
  cases a <;> cases b <;> cases c <;> cases d <;> cases e <;> cases f <;> cases g <;>
    cases h <;> cases i <;> rfl

theorem encodeTCPF_lt (f : TCPF) : encodeTCPF f < 512 := by
  rcases f with ⟨a, b, c, d, e, f, g, h, i⟩
  cases a <;> cases b <;> cases c <;> cases d <;> cases e <;> cases f <;> cases g <;>
    cases h <;> cases i <;> decide

theorem writeFlags_length (fs : List TCPF) : (writeFlags fs).length = 2 * fs.length := by
  induction fs with
  | nil => rfl
  | cons f fs ih => simp [writeFlags, putUint16, ih]; omega

theorem take_set_succ {α : Type} (arr : List α) (i : Nat) (x : α) (h : i < arr.length) :
    (arr.set i x).take (i + 1) = arr.take i ++ [x] := by
  induction arr generalizing i with
  | nil => simp at h
  | cons a arr ih =>
    cases i with
    | zero => simp
    | succ i =>
      simp only [List.set_cons_succ, List.take_succ_cons, List.cons_append, List.cons.injEq,
        true_and]
      exact ih i (by simpa using h)

theorem readFlags_writeFlags (fs : List TCPF) (i : Nat) (arr : List TCPF) (rest : List Byte)
    (h : arr.length = i + fs.length) :
    readFlags i fs.length arr (writeFlags fs ++ rest) = (arr.take i ++ fs, rest, none) := by
  induction fs generalizing i arr with
  | nil =>
    have : arr.take i = arr := List.take_of_length_le (by simp at h; omega)
    simp [readFlags, writeFlags, this]
  | cons f fs ih =>
    have hlt : encodeTCPF f < 65536 := lt_trans (encodeTCPF_lt f) (by decide)
    simp only [List.length_cons] at h
    simp only [List.length_cons, readFlags, writeFlags, List.append_assoc,
      readUint16_putUint16 _ hlt, decodeTCPF_encodeTCPF]
    rw [ih (i + 1) (arr.set i f) (by simp; omega), take_set_succ arr i f (by omega)]
    simp

theorem toUint16_of_range {p : Int} (h0 : 0 ≤ p) (h1 : p ≤ 65535) :
    toUint16 p < 65536 ∧ ((toUint16 p : Nat) : Int) = p := by
  unfold toUint16
  omega

theorem readFull_append (xs rest : List Byte) :
    readFull xs.length (xs ++ rest) = (.ok xs, rest) := by
  simp [readFull]

theorem readAddr_writeAddr (a : Option Addr) (hv : ValidAddr a) (rest : List Byte) :
    readAddr (writeAddr a ++ rest) = (.ok a, rest) := by
  cases a with
  | none => rfl
  | some a =>
    obtain ⟨host, port⟩ := a
    obtain ⟨hl, h0, h1⟩ := hv
    simp only at hl h0 h1
    obtain ⟨hp, hpe⟩ := toUint16_of_range h0 h1
    have hlen : (u8 host.length).val = host.length := u8_val_of_le hl
    by_cases hz : host.length = 0
    · have hh : host = [] := List.length_eq_zero.mp hz
      subst hh
      simp [readAddr, writeAddr, readUint8, u8_val, readUint16_putUint16 _ hp, hpe]
    · have hpos : 0 < host.length := Nat.pos_of_ne_zero hz
      simp [readAddr, writeAddr, readUint8, hlen, hpos, readFull_append,
        readUint16_putUint16 _ hp, hpe, u8_val]

theorem Read_Write_append (f : Proto) (hv : ValidFrame f) (rest : List Byte) :
    Proto.Read Proto.zero ((Proto.Write f).out ++ rest) = ⟨f, rest, none⟩ := by
  obtain ⟨t, a, fs⟩ := f
  rcases hv with ⟨ht, ha, hf⟩ | ⟨ht, hl, ha⟩ | ⟨ht, hva, hf⟩
  · simp only at ht ha hf
    subst ha hf
    rcases ht with ht | ht <;> subst ht <;> rfl
  · simp only at ht hl ha
    subst ht ha
    have hlen : (u8 fs.length).val = fs.length := u8_val_of_le hl
    have hrf := readFlags_writeFlags fs 0 (List.replicate fs.length {}) rest (by simp)
    simp [Proto.Write, Proto.Read, Proto.zero, readUint8, PTCPF, PPING, PPONG, hlen] at hrf ⊢
    simp [PTCPF, hrf]
  · simp only at ht hva hf
    subst hf
    have hra := readAddr_writeAddr a hva rest
    rcases ht with ht | ht <;> subst ht <;>
      simp [Proto.Write, Proto.Read, Proto.zero, readUint8, PTCP, PUDP, PTCPF, PPING, PPONG, hra]

/-! ## Lemmas on short reads -/

theorem readUint16_short (r : List Byte) (h : r.length < 2) :
    ∃ e r1, readUint16 r = (.error e, r1) ∧ e.isShortRead = true := by
  match r, h with
  | [], _ => exact ⟨.EOF, [], rfl, rfl⟩
  | [_], _ => exact ⟨.ErrUnexpectedEOF, [], rfl, rfl⟩
  | _ :: _ :: _, h => simp only [List.length_cons] at h; omega

theorem readFlags_short (n : Nat) (i : Nat) (arr : List TCPF) (r : List Byte)
    (h : r.length < 2 * n) : ShortErr (readFlags i n arr r).2.2 := by
  induction n generalizing i arr r with
  | zero => omega
  | succ n ih =>
    match r, h with
    | [], _ => exact ⟨.EOF, rfl, rfl⟩
    | [_], _ => exact ⟨.ErrUnexpectedEOF, rfl, rfl⟩
    | hi :: lo :: r1, h =>
      simp only [readFlags, readUint16]
      exact ih _ _ r1 (by simp at h; omega)

theorem readAddr_short (present hostLen : Byte) (q : List Byte) (hp : present.val ≠ 0)
    (h : q.length < hostLen.val + 2) :
    ∃ e r1, readAddr (present :: hostLen :: q) = (.error e, r1) ∧ e.isShortRead = true := by
  by_cases hz : hostLen.val > 0
  · have hz2 : hostLen.val ≠ 0 := by omega
    have hz3 : 0 < hostLen.val := hz
    by_cases hq : hostLen.val ≤ q.length
    · obtain ⟨e, r1, he, hs⟩ := readUint16_short (q.drop hostLen.val) (by simp; omega)
      exact ⟨e, r1, by simp [readAddr, readUint8, hp, hz, readFull, hq, he], hs⟩
    · by_cases hn : q = []
      · exact ⟨.EOF, [], by simp [readAddr, readUint8, hp, hz2, hz3, readFull, hq, hn], rfl⟩
      · exact ⟨.ErrUnexpectedEOF, [], by simp [readAddr, readUint8, hp, hz2, hz3, readFull, hq, hn], rfl⟩
  · obtain ⟨e, r1, he, hs⟩ := readUint16_short q (by omega)
    exact ⟨e, r1, by simp [readAddr, readUint8, hp, hz, he], hs⟩

theorem Read_TCPF_short (p0 : Proto) (count : Byte) (ws : List Byte)
    (h : ws.length < 2 * count.val) : ShortErr (Proto.Read p0 (PTCPF :: count :: ws)).err := by
  have := readFlags_short count.val 0 (List.replicate count.val {}) ws h
  simpa [Proto.Read, readUint8, PTCPF, PPING, PPONG] using this

theorem Read_addr_short (p0 : Proto) (t present hostLen : Byte) (q : List Byte)
    (ht : t = PTCP ∨ t = PUDP) (hp : present.val ≠ 0) (h : q.length < hostLen.val + 2) :
    ShortErr (Proto.Read p0 (t :: present :: hostLen :: q)).err := by
  obtain ⟨e, r1, he, hs⟩ := readAddr_short present hostLen q hp h
  rcases ht with ht | ht <;> subst ht <;>
    exact ⟨e, by simp [Proto.Read, readUint8, PTCP, PUDP, PTCPF, PPING, PPONG, he], hs⟩

theorem Read_prefix_short (f : Proto) (hv : ValidFrame f) (p q : List Byte)
    (hpq : (Proto.Write f).out = p ++ q) (hq : q ≠ []) (p0 : Proto) :
    ShortErr (Proto.Read p0 p).err := by
  obtain ⟨t, a, fs⟩ := f
  have hEOF : ShortErr (Proto.Read p0 []).err := ⟨.EOF, rfl, rfl⟩
  rcases hv with ⟨ht, -, -⟩ | ⟨ht, hl, -⟩ | ⟨ht, hva, -⟩
  · simp only at ht
    have hw : (Proto.Write ⟨t, a, fs⟩).out = [t] := by
      rcases ht with ht | ht <;> subst ht <;> rfl
    rw [hw] at hpq
    cases p with
    | nil => exact hEOF
    | cons b p =>
      simp at hpq
      exact absurd hpq.2.2 hq
  · simp only at ht hl
    subst ht
    have hw : (Proto.Write ⟨PTCPF, a, fs⟩).out = PTCPF :: u8 fs.length :: writeFlags fs := rfl
    rw [hw] at hpq
    cases p with
    | nil => exact hEOF
    | cons b p =>
      simp only [List.cons_append, List.cons.injEq] at hpq
      obtain ⟨rfl, hpq⟩ := hpq
      cases p with
      | nil => exact ⟨.EOF, rfl, rfl⟩
      | cons c p =>
        simp only [List.cons_append, List.cons.injEq] at hpq
        obtain ⟨rfl, hpq⟩ := hpq
        have hlen := congrArg List.length hpq
        rw [writeFlags_length, List.length_append] at hlen
        have hqpos : 0 < q.length := List.length_pos.mpr hq
        exact Read_TCPF_short p0 _ p (by rw [u8_val_of_le hl]; omega)
  · simp only at ht hva
    have hw : (Proto.Write ⟨t, a, fs⟩).out = t :: writeAddr a := by
      rcases ht with ht | ht <;> subst ht <;> rfl
    rw [hw] at hpq
    cases p with
    | nil => exact hEOF
    | cons b p =>
      simp only [List.cons_append, List.cons.injEq] at hpq
      obtain ⟨rfl, hpq⟩ := hpq
      have hE1 : ShortErr (Proto.Read p0 [t]).err := by
        rcases ht with ht | ht <;> subst ht <;> exact ⟨.EOF, rfl, rfl⟩
      cases a with
      | none =>
        cases p with
        | nil => exact hE1
        | cons c p =>
          simp [writeAddr] at hpq
          exact absurd hpq.2.2 hq
      | some a =>
        obtain ⟨host, port⟩ := a
        obtain ⟨hl, -, -⟩ := hva
        simp only at hl
        have hlenv : (u8 host.length).val = host.length := u8_val_of_le hl
        have hw2 : writeAddr (some ⟨host, port⟩) =
            u8 1 :: u8 host.length :: (host ++ putUint16 (toUint16 port)) := by
          by_cases hz : host.length = 0
          · have hh : host = [] := List.length_eq_zero.mp hz
            subst hh
            simp [writeAddr, u8_val]
          · have hpos : 0 < host.length := Nat.pos_of_ne_zero hz
            simp [writeAddr, hlenv, hpos]
        rw [hw2] at hpq
        cases p with
        | nil => exact hE1
        | cons c p =>
          simp only [List.cons_append, List.cons.injEq] at hpq
          obtain ⟨rfl, hpq⟩ := hpq
          cases p with
          | nil =>
            rcases ht with ht | ht <;> subst ht <;> exact ⟨.EOF, rfl, rfl⟩
          | cons d p =>
            simp only [List.cons_append, List.cons.injEq] at hpq
            obtain ⟨rfl, hpq⟩ := hpq
            have hlen := congrArg List.length hpq
            simp only [List.length_append, putUint16, List.length_cons, List.length_nil] at hlen
            have hqpos : 0 < q.length := List.length_pos.mpr hq
            exact Read_addr_short p0 t _ _ p ht (by decide) (by rw [hlenv]; omega)

theorem readUint8_err_short (r r1 : List Byte) (e : Err) (h : readUint8 r = (.error e, r1)) :
    e.isShortRead = true := by
  cases r with
  | nil => simp only [readUint8, Prod.mk.injEq, Except.error.injEq] at h; rw [← h.1]; rfl
  | cons b r => simp [readUint8] at h

theorem readUint16_err_short (r r1 : List Byte) (e : Err) (h : readUint16 r = (.error e, r1)) :
    e.isShortRead = true := by
  match r, h with
  | [], h => simp only [readUint16, Prod.mk.injEq, Except.error.injEq] at h; rw [← h.1]; rfl
  | [_], h => simp only [readUint16, Prod.mk.injEq, Except.error.injEq] at h; rw [← h.1]; rfl
  | _ :: _ :: _, h => simp [readUint16] at h

theorem readFull_err_short (n : Nat) (r r1 : List Byte) (e : Err)
    (h : readFull n r = (.error e, r1)) : e.isShortRead = true := by
  unfold readFull at h
  split at h
  · simp at h
  · split at h <;>
      (simp only [Prod.mk.injEq, Except.error.injEq] at h; rw [← h.1]; rfl)

theorem readFlags_err_short (n i : Nat) (arr : List TCPF) (r : List Byte) (e : Err)
    (h : (readFlags i n arr r).2.2 = some e) : e.isShortRead = true := by
  induction n generalizing i arr r with
  | zero => simp [readFlags] at h
  | succ n ih =>
    match r, h with
    | [], h => simp only [readFlags, readUint16, Option.some.injEq] at h; rw [← h]; rfl
    | [_], h => simp only [readFlags, readUint16, Option.some.injEq] at h; rw [← h]; rfl
    | hi :: lo :: r1, h =>
      simp only [readFlags, readUint16] at h
      exact ih _ _ _ h

theorem readAddr_err_short (r r1 : List Byte) (e : Err) (h : readAddr r = (.error e, r1)) :
    e.isShortRead = true := by
  unfold readAddr at h
  split at h
  · next e1 r2 h1 =>
    simp only [Prod.mk.injEq, Except.error.injEq] at h
    rw [← h.1]; exact readUint8_err_short _ _ _ h1
  · next present r2 h1 =>
    split at h
    · simp at h
    · split at h
      · next e2 r3 h2 =>
        simp only [Prod.mk.injEq, Except.error.injEq] at h
        rw [← h.1]; exact readUint8_err_short _ _ _ h2
      · next hostLen r3 h2 =>
        simp only at h
        split at h
        · next e3 r4 h3 =>
          simp only [Prod.mk.injEq, Except.error.injEq] at h
          rw [← h.1]
          split at h3
          · exact readFull_err_short _ _ _ _ h3
          · simp at h3
        · next host r4 h3 =>
          split at h
          · next e4 r5 h4 =>
            simp only [Prod.mk.injEq, Except.error.injEq] at h
            rw [← h.1]; exact readUint16_err_short _ _ _ h4
          · simp at h

theorem Read_err_short (p0 : Proto) (b : Byte) (r : List Byte)
    (hb : b ∈ [PPING, PPONG, PTCPF, PTCP, PUDP]) (e : Err)
    (h : (Proto.Read p0 (b :: r)).err = some e) : e.isShortRead = true := by
  simp only [List.mem_cons, List.mem_singleton, List.not_mem_nil, or_false] at hb
  rcases hb with hb | hb | hb | hb | hb <;> subst hb
  · simp [Proto.Read, readUint8, PPING] at h
  · simp [Proto.Read, readUint8, PPING, PPONG] at h
  · simp only [Proto.Read, readUint8, PTCPF, PPING, PPONG] at h
    simp only [Fin.isValue, Fin.reduceEq, or_self, ↓reduceIte] at h
    split at h
    · next e1 r2 h1 =>
      simp only [Option.some.injEq] at h
      rw [← h]; exact readUint8_err_short _ _ _ h1
    · next count r2 h1 =>
      exact readFlags_err_short _ _ _ _ e h
  all_goals
    simp only [Proto.Read, readUint8, PTCPF, PPING, PPONG, PTCP, PUDP] at h
    simp only [Fin.isValue, Fin.reduceEq, or_self, or_true, true_or, ↓reduceIte] at h
    split at h
    · next e1 r2 h1 =>
      simp only [Option.some.injEq] at h
      rw [← h]; exact readAddr_err_short _ _ _ h1
    · simp at h

theorem types_enumerated : ∀ b : Byte,
    b ∉ [PPING, PPONG, PTCPF, PTCP, PUDP] ↔ (b.val = 0 ∨ 6 ≤ b.val) := by
  intro b
  simp only [List.mem_cons, List.mem_singleton, List.not_mem_nil, or_false, PPING, PPONG, PTCPF,
    PTCP, PUDP, Fin.ext_iff]
  have := b.isLt
  simp only [Fin.isValue, Fin.val_one, Fin.val_two]
  omega

/-! ## Lemmas on the selection loop -/

/-- Invariant of the selection loop. -/
theorem leastLoaded_spec (items : List timedConn) (i : Nat) (best : Option (Nat × timedConn))
    (bs : Int) :
    (∀ (j : Nat) (tc : timedConn) (c : Conn), items[j]? = some tc → tc.conn = some c →
        (leastLoaded items i best bs).2 ≤ c.numStreams) ∧
    (((leastLoaded items i best bs) = (best, bs)) ∨
      (∃ k tc c, (leastLoaded items i best bs) = (some (i + k, tc), c.numStreams) ∧
        items[k]? = some tc ∧ tc.conn = some c ∧ c.numStreams < bs ∧
        ∀ j tc1 c1, j < k → items[j]? = some tc1 → tc1.conn = some c1 →
          c.numStreams < c1.numStreams)) := by
  induction items generalizing i best bs with
  | nil => exact ⟨by simp, Or.inl rfl⟩
  | cons tc rest ih =>
    cases hc : tc.conn with
    | none =>
      obtain ⟨ha, hb⟩ := ih (i + 1) best bs
      have hstep : leastLoaded (tc :: rest) i best bs = leastLoaded rest (i + 1) best bs := by
        simp [leastLoaded, hc]
      rw [hstep]
      refine ⟨?_, ?_⟩
      · intro j tc1 c1 hj hc1
        cases j with
        | zero =>
          simp at hj
          subst hj
          rw [hc] at hc1
          cases hc1
        | succ j => exact ha j tc1 c1 (by simpa using hj) hc1
      · rcases hb with hb | ⟨k, tck, ck, hk, hik, hck, hlt, hprior⟩
        · exact Or.inl hb
        · refine Or.inr ⟨k + 1, tck, ck, ?_, by simpa using hik, hck, hlt, ?_⟩
          · rw [hk]; congr 3; omega
          · intro j tc1 c1 hjk hj hc1
            cases j with
            | zero =>
              simp at hj
              subst hj
              rw [hc] at hc1
              cases hc1
            | succ j => exact hprior j tc1 c1 (by omega) (by simpa using hj) hc1
    | some c =>
      by_cases hlt : c.numStreams < bs
      · obtain ⟨ha, hb⟩ := ih (i + 1) (some (i, tc)) c.numStreams
        have hstep : leastLoaded (tc :: rest) i best bs =
            leastLoaded rest (i + 1) (some (i, tc)) c.numStreams := by
          simp [leastLoaded, hc, hlt]
        rw [hstep]
        have hle : (leastLoaded rest (i + 1) (some (i, tc)) c.numStreams).2 ≤ c.numStreams := by
          rcases hb with hb | ⟨k, tck, ck, hk, -, -, hlt2, -⟩
          · rw [hb]
          · rw [hk]; exact le_of_lt hlt2
        refine ⟨?_, ?_⟩
        · intro j tc1 c1 hj hc1
          cases j with
          | zero =>
            simp at hj
            subst hj
            rw [hc] at hc1
            cases hc1
            exact hle
          | succ j => exact ha j tc1 c1 (by simpa using hj) hc1
        · rcases hb with hb | ⟨k, tck, ck, hk, hik, hck, hlt2, hprior⟩
          · refine Or.inr ⟨0, tc, c, by rw [hb]; rfl, by simp, hc, hlt, ?_⟩
            intro j tc1 c1 hj
            omega
          · refine Or.inr ⟨k + 1, tck, ck, ?_, by simpa using hik, hck, lt_trans hlt2 hlt, ?_⟩
            · rw [hk]; congr 3; omega
            · intro j tc1 c1 hjk hj hc1
              cases j with
              | zero =>
                simp at hj
                subst hj
                rw [hc] at hc1
                cases hc1
                exact hlt2
              | succ j => exact hprior j tc1 c1 (by omega) (by simpa using hj) hc1
      · obtain ⟨ha, hb⟩ := ih (i + 1) best bs
        have hstep : leastLoaded (tc :: rest) i best bs = leastLoaded rest (i + 1) best bs := by
          simp [leastLoaded, hc, hlt]
        rw [hstep]
        have hle : (leastLoaded rest (i + 1) best bs).2 ≤ c.numStreams := by
          rcases hb with hb | ⟨k, tck, ck, hk, -, -, hlt2, -⟩
          · rw [hb]; exact not_lt.mp hlt
          · rw [hk]; exact le_of_lt (lt_of_lt_of_le hlt2 (not_lt.mp hlt))
        refine ⟨?_, ?_⟩
        · intro j tc1 c1 hj hc1
          cases j with
          | zero =>
            simp at hj
            subst hj
            rw [hc] at hc1
            cases hc1
            exact hle
          | succ j => exact ha j tc1 c1 (by simpa using hj) hc1
        · rcases hb with hb | ⟨k, tck, ck, hk, hik, hck, hlt2, hprior⟩
          · exact Or.inl hb
          · refine Or.inr ⟨k + 1, tck, ck, ?_, by simpa using hik, hck, hlt2, ?_⟩
            · rw [hk]; congr 3; omega
            · intro j tc1 c1 hjk hj hc1
              cases j with
              | zero =>
                simp at hj
                subst hj
                rw [hc] at hc1
                cases hc1
                exact lt_of_lt_of_le hlt2 (not_lt.mp hlt)
              | succ j => exact hprior j tc1 c1 (by omega) (by simpa using hj) hc1

theorem leastLoaded_absent (items : List timedConn) (i : Nat) (best : Option (Nat × timedConn))
    (bs : Int) (h : ∀ tc ∈ items, tc.conn = none) :
    leastLoaded items i best bs = (best, bs) := by
  induction items generalizing i with
  | nil => rfl
  | cons tc rest ih =>
    have hc : tc.conn = none := h tc (List.mem_cons_self _ _)
    simp only [leastLoaded, hc]
    exact ih (i + 1) (fun x hx => h x (List.mem_cons_of_mem _ hx))

theorem newConn_all_absent (env : DialEnv) (it : Iterator) (hne : it.Items ≠ [])
    (h : ∀ tc ∈ it.Items, tc.conn = none) : newConn env it = .error .nilDereference := by
  have hpos : 0 < it.Items.length := List.length_pos.mpr hne
  have hlt : it.cursor % it.Items.length < it.Items.length := Nat.mod_lt _ hpos
  have hget : it.Items[it.cursor % it.Items.length]? =
      some (it.Items[it.cursor % it.Items.length]) := List.getElem?_eq_getElem hlt
  have hc : (it.Items[it.cursor % it.Items.length]).conn = none :=
    h _ (List.getElem_mem hlt)
  simp [newConn, leastLoaded_absent it.Items 0 none maxInt h, Iterator.Next, hget, hc]

/-- Whenever `newConn` returns, the handle it returns is not nil. -/
theorem newConn_returns_handle (env : DialEnv) (it : Iterator) (res : NewConnResult)
    (h : newConn env it = .ok res) : res.conn ≠ none := by
  unfold newConn at h
  simp only at h
  split at h
  · simp at h
  · next i bestTC it1 hpick =>
    split at h
    · simp at h
    · next c hc =>
      split at h
      · simp only [Except.ok.injEq] at h
        subst h
        cases env.created <;> simp
      · simp only [Except.ok.injEq] at h
        subst h
        simp

/-! ## Lemmas on the wire layout -/

theorem writeAddr_some (host : List Byte) (port : Int) (hl : host.length ≤ 255) :
    writeAddr (some ⟨host, port⟩) =
      u8 1 :: u8 host.length :: (host ++ putUint16 (toUint16 port)) := by
  have hlenv : (u8 host.length).val = host.length := u8_val_of_le hl
  by_cases hz : host.length = 0
  · have hh : host = [] := List.length_eq_zero.mp hz
    subst hh
    simp [writeAddr, u8_val]
  · have hpos : 0 < host.length := Nat.pos_of_ne_zero hz
    simp [writeAddr, hlenv, hpos]

theorem u8_mod (n : Nat) : u8 (n % 256) = u8 n := by
  apply Fin.ext
  simp [u8_val]

theorem writeFlags_eq_flatMap (fs : List TCPF) :
    writeFlags fs = fs.flatMap (fun f => [u8 (encodeTCPF f / 256), u8 (encodeTCPF f % 256)]) := by
  induction fs with
  | nil => rfl
  | cons f fs ih =>
    simp only [writeFlags, ih, List.flatMap_cons, putUint16, List.cons_append, List.nil_append,
      List.cons.injEq, true_and, u8_mod, and_self]

theorem encodeTCPF_bits (f : TCPF) :
    (encodeTCPF f).testBit 0 = f.FIN ∧ (encodeTCPF f).testBit 1 = f.SYN ∧
    (encodeTCPF f).testBit 2 = f.RST ∧ (encodeTCPF f).testBit 3 = f.PSH ∧
    (encodeTCPF f).testBit 4 = f.ACK ∧ (encodeTCPF f).testBit 5 = f.URG ∧
    (encodeTCPF f).testBit 6 = f.ECE ∧ (encodeTCPF f).testBit 7 = f.CWR ∧
    (encodeTCPF f).testBit 8 = f.NS := by
  rcases f with ⟨a, b, c, d, e, f, g, h, i⟩
  cases a <;> cases b <;> cases c <;> cases d <;> cases e <;> cases f <;> cases g <;>
    cases h <;> cases i <;> decide

/-! ## The codec: round trip and error behaviour -/

/-- C1: codec round trip. For every valid frame, `Proto.Write` returns no error,
`Proto.Read` on exactly the written bytes returns no error, consumes them all
and yields the frame itself, and writing the decoded frame gives the
identical bytes. -/
theorem codec_round_trip (f : Proto) (hv : ValidFrame f) :
    (Proto.Write f).err = none ∧
    Proto.Read Proto.zero (Proto.Write f).out = ⟨f, [], none⟩ ∧
    Proto.Write (Proto.Read Proto.zero (Proto.Write f).out).p = Proto.Write f := by
  have hr : Proto.Read Proto.zero (Proto.Write f).out = ⟨f, [], none⟩ := by
    simpa using Read_Write_append f hv []
  refine ⟨?_, hr, by rw [hr]⟩
  obtain ⟨t, a, fs⟩ := f
  rcases hv with ⟨ht, -, -⟩ | ⟨ht, -, -⟩ | ⟨ht, -, -⟩
  · rcases ht with ht | ht <;> simp only at ht <;> subst ht <;> rfl
  · simp only at ht; subst ht; rfl
  · rcases ht with ht | ht <;> simp only at ht <;> subst ht <;> rfl

/-- Witness of C1: the frame TCP `1.1.1.1:443` is valid and round-trips. -/
theorem codec_round_trip_witness :
    ValidFrame ⟨PTCP, some ⟨asciiBytes "1.1.1.1", 443⟩, []⟩ ∧
    Proto.Read Proto.zero (Proto.Write ⟨PTCP, some ⟨asciiBytes "1.1.1.1", 443⟩, []⟩).out =
      ⟨⟨PTCP, some ⟨asciiBytes "1.1.1.1", 443⟩, []⟩, [], none⟩ :=
  ⟨by decide, (codec_round_trip ⟨PTCP, some ⟨asciiBytes "1.1.1.1", 443⟩, []⟩ (by decide)).2.1⟩

/-- C2: decode does not over-read. For every valid frame `f` and every byte
string `rest`, `Proto.Read` on the bytes of `f` followed by `rest` yields `f`,
consumes exactly the bytes of `f` and leaves `rest` unread, so that a second
frame written behind the first is decoded from what is left. -/
theorem decode_does_not_over_read (f : Proto) (hv : ValidFrame f) (rest : List Byte) :
    Proto.Read Proto.zero ((Proto.Write f).out ++ rest) = ⟨f, rest, none⟩ ∧
    ((Proto.Write f).out ++ rest).length -
        (Proto.Read Proto.zero ((Proto.Write f).out ++ rest)).rest.length =
      (Proto.Write f).out.length ∧
    (∀ g : Proto, ValidFrame g →
      Proto.Read Proto.zero
          (Proto.Read Proto.zero ((Proto.Write f).out ++ ((Proto.Write g).out ++ rest))).rest =
        ⟨g, rest, none⟩) := by
  refine ⟨Read_Write_append f hv rest, ?_, ?_⟩
  · rw [Read_Write_append f hv rest]
    simp
  · intro g hg
    rw [Read_Write_append f hv]
    exact Read_Write_append g hg rest

/-- Witness of C2: a TCPF frame followed by the bytes `01 02`. -/
theorem decode_does_not_over_read_witness :
    ValidFrame ⟨PTCPF, none, [{ PSH := true, ACK := true }, { SYN := true }]⟩ ∧
    Proto.Read Proto.zero
        ((Proto.Write ⟨PTCPF, none, [{ PSH := true, ACK := true }, { SYN := true }]⟩).out ++
          [0x01, 0x02]) =
      ⟨⟨PTCPF, none, [{ PSH := true, ACK := true }, { SYN := true }]⟩, [0x01, 0x02], none⟩ :=
  ⟨by decide,
    (decode_does_not_over_read ⟨PTCPF, none, [{ PSH := true, ACK := true }, { SYN := true }]⟩
      (by decide) [0x01, 0x02]).1⟩

/-- C3: an unknown discriminator is rejected. When the first byte is none of
`0x01..0x05` (that is, it is `0x00` or at least `0x06`), `Proto.Read` stores
it as the type, returns the unknown-type error and has consumed that one byte
only; when the first byte is one of `0x01..0x05`, an error, if any, is a
premature end of input and never the unknown-type error. -/
theorem unknown_discriminator_rejected (p0 : Proto) (b : Byte) (r : List Byte) :
    (b ∉ [PPING, PPONG, PTCPF, PTCP, PUDP] ↔ (b.val = 0 ∨ 6 ≤ b.val)) ∧
    (b ∉ [PPING, PPONG, PTCPF, PTCP, PUDP] →
      Proto.Read p0 (b :: r) = ⟨{ p0 with Typ := b }, r, some (.unknownType b)⟩) ∧
    (b ∈ [PPING, PPONG, PTCPF, PTCP, PUDP] →
      ∀ e : Err, (Proto.Read p0 (b :: r)).err = some e →
        e.isShortRead = true ∧ ∀ t : Byte, e ≠ .unknownType t) := by
  refine ⟨types_enumerated b, ?_, ?_⟩
  · intro hb
    simp only [List.mem_cons, List.mem_singleton, List.not_mem_nil, or_false, not_or] at hb
    obtain ⟨h1, h2, h3, h4, h5⟩ := hb
    simp [Proto.Read, readUint8, h1, h2, h3, h4, h5]
  · intro hb e he
    have hs := Read_err_short p0 b r hb e he
    refine ⟨hs, fun t ht => ?_⟩
    rw [ht] at hs
    simp [Err.isShortRead] at hs

/-- Witness of C3: the discriminators `0x06` and `0x00` are rejected after one
byte, and a TCPF frame cut short fails with a premature end of input. -/
theorem unknown_discriminator_rejected_witness :
    Proto.Read Proto.zero [0x06, 0x01] =
      ⟨{ Proto.zero with Typ := 0x06 }, [0x01], some (.unknownType 0x06)⟩ ∧
    Proto.Read Proto.zero [0x00, 0x01] =
      ⟨{ Proto.zero with Typ := 0x00 }, [0x01], some (.unknownType 0x00)⟩ ∧
    Err.isShortRead .EOF = true :=
  ⟨(unknown_discriminator_rejected Proto.zero 0x06 [0x01]).2.1 (by decide),
    (unknown_discriminator_rejected Proto.zero 0x00 [0x01]).2.1 (by decide),
    ((unknown_discriminator_rejected Proto.zero PTCPF []).2.2 (by decide) .EOF rfl).1⟩

/-- C4: a short read is an error. For every valid frame and every strict prefix
`p` of its written bytes (the empty input included), `Proto.Read` on `p`
returns a premature-end-of-input error; in particular a TCPF frame whose count
byte announces more flag words than are present fails, and so does an address
whose host length announces more bytes than remain before the end of the port. -/
theorem short_read_is_error (f : Proto) (hv : ValidFrame f) (p : List Byte)
    (hp : p <+: (Proto.Write f).out) (hne : p ≠ (Proto.Write f).out) (p0 : Proto) :
    ShortErr (Proto.Read p0 p).err ∧
    (∀ (count : Byte) (ws : List Byte), ws.length < 2 * count.val →
      ShortErr (Proto.Read p0 (PTCPF :: count :: ws)).err) ∧
    (∀ (t present hostLen : Byte) (q : List Byte), (t = PTCP ∨ t = PUDP) → present.val ≠ 0 →
      q.length < hostLen.val + 2 →
      ShortErr (Proto.Read p0 (t :: present :: hostLen :: q)).err) := by
  obtain ⟨q, hq⟩ := hp
  have hqne : q ≠ [] := by
    intro h
    subst h
    exact hne (by simpa using hq)
  exact ⟨Read_prefix_short f hv p q hq.symm hqne p0,
    fun count ws h => Read_TCPF_short p0 count ws h,
    fun t present hostLen q ht hpr h => Read_addr_short p0 t present hostLen q ht hpr h⟩

/-- Witness of C4: the frame TCP `1.1.1.1:443` cut after its host-length byte. -/
theorem short_read_is_error_witness :
    ValidFrame ⟨PTCP, some ⟨asciiBytes "1.1.1.1", 443⟩, []⟩ ∧
    ShortErr (Proto.Read Proto.zero [0x04, 0x01, 0x07]).err :=
  ⟨by decide,
    (short_read_is_error ⟨PTCP, some ⟨asciiBytes "1.1.1.1", 443⟩, []⟩ (by decide)
      [0x04, 0x01, 0x07] ⟨[0x31, 0x2E, 0x31, 0x2E, 0x31, 0x2E, 0x31, 0x01, 0xBB], by decide⟩
      (by decide) Proto.zero).1⟩

/-! ## The codec: wire layout and framing length -/

/-- C5: exact wire layout of an address frame. A TCP or UDP frame with a host
of at most 255 bytes and a port in `0..65535` is written as the type byte,
`0x01`, the host length, the host bytes and the port high byte then low byte,
and nothing else; with a nil address it is written as the type byte and
`0x00`. TCP `1.1.1.1:443` is written as `04 01 07 31 2E 31 2E 31 2E 31 01 BB`
and TCP `www.google.com:80` as 19 bytes. -/
theorem addr_frame_wire_layout (t : PType) (ht : t = PTCP ∨ t = PUDP) (host : List Byte)
    (port : Int) (fs : List TCPF) (hl : host.length ≤ 255) (h0 : 0 ≤ port)
    (h1 : port ≤ 65535) :
    Proto.Write ⟨t, some ⟨host, port⟩, fs⟩ =
      ⟨[t, 0x01, u8 host.length] ++ host ++ [u8 (port.toNat / 256), u8 (port.toNat % 256)],
        none⟩ ∧
    (u8 host.length).val = host.length ∧
    (u8 (port.toNat / 256)).val = port.toNat / 256 ∧
    (u8 (port.toNat % 256)).val = port.toNat % 256 ∧
    Proto.Write ⟨t, none, fs⟩ = ⟨[t, 0x00], none⟩ ∧
    (Proto.Write ⟨PTCP, some ⟨asciiBytes "1.1.1.1", 443⟩, []⟩).out =
      [0x04, 0x01, 0x07, 0x31, 0x2E, 0x31, 0x2E, 0x31, 0x2E, 0x31, 0x01, 0xBB] ∧
    (Proto.Write ⟨PTCP, some ⟨asciiBytes "www.google.com", 80⟩, []⟩).out.length = 19 := by
  have hp : toUint16 port = port.toNat := by unfold toUint16; omega
  refine ⟨?_, u8_val_of_le hl, ?_, ?_, ?_, by decide, by decide⟩
  · have hw : Proto.Write ⟨t, some ⟨host, port⟩, fs⟩ = ⟨t :: writeAddr (some ⟨host, port⟩), none⟩ := by
      rcases ht with ht | ht <;> subst ht <;> rfl
    rw [hw, writeAddr_some host port hl, hp]
    simp only [putUint16, List.cons_append, List.nil_append, List.append_assoc,
      WriteResult.mk.injEq, List.cons.injEq, true_and, and_true]
    refine ⟨rfl, ?_⟩
    rw [u8_mod]
  · rw [u8_val]; omega
  · rw [u8_val]; omega
  · rcases ht with ht | ht <;> subst ht <;> rfl

/-- Witness of C5: the UDP frame `1.1.1.1:53`. -/
theorem addr_frame_wire_layout_witness :
    Proto.Write ⟨PUDP, some ⟨asciiBytes "1.1.1.1", 53⟩, []⟩ =
      ⟨[0x05, 0x01, 0x07, 0x31, 0x2E, 0x31, 0x2E, 0x31, 0x2E, 0x31, 0x00, 0x35], none⟩ :=
  (addr_frame_wire_layout PUDP (Or.inr rfl) (asciiBytes "1.1.1.1") 53 [] (by decide) (by decide)
    (by decide)).1

/-- C6: exact wire layout of a TCPF frame. A TCPF frame with `k ≤ 255` flag
sets is written as `0x03`, the byte `k` and `k` big-endian 16-bit words; the
word of a flag set has bit 0 set iff FIN, bit 1 iff SYN, bit 2 iff RST, bit 3
iff PSH, bit 4 iff ACK, bit 5 iff URG, bit 6 iff ECE, bit 7 iff CWR, bit 8
iff NS, and every higher bit clear, so it is below 512. The list
`[{PSH,ACK},{SYN}]` is written as `03 02 00 18 00 02` and is read back as the
same two flag sets. -/
theorem tcpf_frame_wire_layout (fs : List TCPF) (a : Option Addr) (hk : fs.length ≤ 255) :
    Proto.Write ⟨PTCPF, a, fs⟩ =
      ⟨[0x03, u8 fs.length] ++
        fs.flatMap (fun f => [u8 (encodeTCPF f / 256), u8 (encodeTCPF f % 256)]), none⟩ ∧
    (u8 fs.length).val = fs.length ∧
    (∀ f : TCPF,
      (u8 (encodeTCPF f / 256)).val * 256 + (u8 (encodeTCPF f % 256)).val = encodeTCPF f ∧
      (encodeTCPF f).testBit 0 = f.FIN ∧ (encodeTCPF f).testBit 1 = f.SYN ∧
      (encodeTCPF f).testBit 2 = f.RST ∧ (encodeTCPF f).testBit 3 = f.PSH ∧
      (encodeTCPF f).testBit 4 = f.ACK ∧ (encodeTCPF f).testBit 5 = f.URG ∧
      (encodeTCPF f).testBit 6 = f.ECE ∧ (encodeTCPF f).testBit 7 = f.CWR ∧
      (encodeTCPF f).testBit 8 = f.NS ∧
      (∀ i : Nat, 9 ≤ i → (encodeTCPF f).testBit i = false) ∧ encodeTCPF f < 512) ∧
    Proto.Write ⟨PTCPF, none, [{ PSH := true, ACK := true }, { SYN := true }]⟩ =
      ⟨[0x03, 0x02, 0x00, 0x18, 0x00, 0x02], none⟩ ∧
    Proto.Read Proto.zero [0x03, 0x02, 0x00, 0x18, 0x00, 0x02] =
      ⟨⟨PTCPF, none, [{ PSH := true, ACK := true }, { SYN := true }]⟩, [], none⟩ := by
  refine ⟨?_, u8_val_of_le hk, ?_, by decide, by decide⟩
  · have hw : Proto.Write ⟨PTCPF, a, fs⟩ = ⟨PTCPF :: u8 fs.length :: writeFlags fs, none⟩ := rfl
    rw [hw, writeFlags_eq_flatMap]
    rfl
  · intro f
    have hlt := encodeTCPF_lt f
    obtain ⟨b0, b1, b2, b3, b4, b5, b6, b7, b8⟩ := encodeTCPF_bits f
    refine ⟨?_, b0, b1, b2, b3, b4, b5, b6, b7, b8, ?_, hlt⟩
    · simp only [u8_val]; omega
    · intro i hi
      apply Nat.testBit_lt_two_pow
      calc encodeTCPF f < 2 ^ 9 := hlt
        _ ≤ 2 ^ i := Nat.pow_le_pow_right (by decide) hi

/-- Witness of C6: the single flag set `{FIN, NS}` is written as `03 01 01 01`. -/
theorem tcpf_frame_wire_layout_witness :
    Proto.Write ⟨PTCPF, none, [{ FIN := true, NS := true }]⟩ =
      ⟨[0x03, 0x01, 0x01, 0x01], none⟩ :=
  (tcpf_frame_wire_layout [{ FIN := true, NS := true }] none (by decide)).1

/-- C7: framing length of the frames without an address. A PING frame is
written as the one byte `0x01` and a PONG frame as the one byte `0x02`,
whatever their `Addr` and `TCPF` fields hold; a TCPF frame with `k` flag sets
is written as `2 + 2k` bytes; a TCP or UDP frame with a nil address is
written as 2 bytes. -/
theorem framing_length (a : Option Addr) (fs : List TCPF) :
    Proto.Write ⟨PPING, a, fs⟩ = ⟨[0x01], none⟩ ∧
    Proto.Write ⟨PPONG, a, fs⟩ = ⟨[0x02], none⟩ ∧
    (Proto.Write ⟨PTCPF, a, fs⟩).out.length = 2 + 2 * fs.length ∧
    (Proto.Write ⟨PTCPF, a, fs⟩).err = none ∧
    (Proto.Write ⟨PTCP, none, fs⟩).out.length = 2 ∧
    (Proto.Write ⟨PUDP, none, fs⟩).out.length = 2 := by
  refine ⟨rfl, rfl, ?_, rfl, rfl, rfl⟩
  have hw : Proto.Write ⟨PTCPF, a, fs⟩ = ⟨PTCPF :: u8 fs.length :: writeFlags fs, none⟩ := rfl
  rw [hw]
  simp only [List.length_cons, writeFlags_length]
  omega

/-- C8, as amended: framing length of an address frame. A TCP or UDP frame
with a non-nil address whose host has at most 255 bytes is written as
`5 + len(host)` bytes, whatever the port: the type byte, the presence byte,
the host-length byte, the host and the two port bytes. -/
theorem addr_frame_length (host : List Byte) (port : Int) (fs : List TCPF)
    (hl : host.length ≤ 255) :
    (Proto.Write ⟨PTCP, some ⟨host, port⟩, fs⟩).out.length = 5 + host.length ∧
    (Proto.Write ⟨PUDP, some ⟨host, port⟩, fs⟩).out.length = 5 + host.length := by
  have h4 : Proto.Write ⟨PTCP, some ⟨host, port⟩, fs⟩ =
      ⟨PTCP :: writeAddr (some ⟨host, port⟩), none⟩ := rfl
  have h5 : Proto.Write ⟨PUDP, some ⟨host, port⟩, fs⟩ =
      ⟨PUDP :: writeAddr (some ⟨host, port⟩), none⟩ := rfl
  rw [h4, h5, writeAddr_some host port hl]
  simp only [putUint16, List.length_cons, List.length_append, List.length_nil]
  constructor <;> omega

/-- Witness of C8, as amended: TCP `www.google.com:80` is written as `5 + 14` bytes. -/
theorem addr_frame_length_witness :
    (asciiBytes "www.google.com").length ≤ 255 ∧
    (Proto.Write ⟨PTCP, some ⟨asciiBytes "www.google.com", 80⟩, []⟩).out.length =
      5 + (asciiBytes "www.google.com").length :=
  ⟨by decide, (addr_frame_length (asciiBytes "www.google.com") 80 [] (by decide)).1⟩

/-- C8, as stated, fails: the host `www.google.com` has 14 bytes, at most 255,
and the TCP frame for `www.google.com:80` is written as 19 bytes, not
`4 + 14 = 18`. -/
theorem addr_frame_length_counterexample :
    (asciiBytes "www.google.com").length = 14 ∧
    (asciiBytes "www.google.com").length ≤ 255 ∧
    (Proto.Write ⟨PTCP, some ⟨asciiBytes "www.google.com", 80⟩, []⟩).out.length = 19 ∧
    ¬ ((Proto.Write ⟨PTCP, some ⟨asciiBytes "www.google.com", 80⟩, []⟩).out.length =
      4 + (asciiBytes "www.google.com").length) := by
  decide

/-! ## The dispatcher: selection and fallback -/

/-- C9: least-loaded selection. In every pool with a present connection (whose
stream count is below the largest `int`, the initial value of `bestStreams`),
`newConn` returns and the item it chose has a present handle, has the minimum
stream count among the present connections and is the lowest index with that
count; in particular a present connection with strictly fewer streams than
every other present connection is the one chosen. -/
theorem newConn_least_loaded (env : DialEnv) (it : Iterator)
    (hpres : ∃ (k : Nat) (tc : timedConn) (c : Conn),
      it.Items[k]? = some tc ∧ tc.conn = some c ∧ c.numStreams < maxInt) :
    ∃ (res : NewConnResult) (tc : timedConn) (c : Conn),
      newConn env it = .ok res ∧ it.Items[res.chosen]? = some tc ∧ tc.conn = some c ∧
      (∀ (j : Nat) (tc1 : timedConn) (c1 : Conn), it.Items[j]? = some tc1 → tc1.conn = some c1 →
        c.numStreams ≤ c1.numStreams ∧ (c1.numStreams = c.numStreams → res.chosen ≤ j)) ∧
      (∀ (k : Nat) (tck : timedConn) (ck : Conn), it.Items[k]? = some tck → tck.conn = some ck →
        (∀ (j : Nat) (tc1 : timedConn) (c1 : Conn), j ≠ k → it.Items[j]? = some tc1 →
          tc1.conn = some c1 → ck.numStreams < c1.numStreams) → res.chosen = k) := by
  obtain ⟨k0, tc0, c0, hk0, hc0, hlt0⟩ := hpres
  obtain ⟨ha, hb⟩ := leastLoaded_spec it.Items 0 none maxInt
  rcases hb with hb | ⟨k, tc, c, hk, hik, hck, -, hprior⟩
  · have := ha k0 tc0 c0 hk0 hc0
    rw [hb] at this
    exact absurd hlt0 (not_lt.mpr this)
  · rw [hk] at ha
    simp only [Nat.zero_add] at hk
    have hmin : ∀ (j : Nat) (tc1 : timedConn) (c1 : Conn), it.Items[j]? = some tc1 →
        tc1.conn = some c1 →
        c.numStreams ≤ c1.numStreams ∧ (c1.numStreams = c.numStreams → k ≤ j) := by
      intro j tc1 c1 hj hc1
      refine ⟨ha j tc1 c1 hj hc1, fun heq => ?_⟩
      by_contra hjk
      have := hprior j tc1 c1 (by omega) hj hc1
      omega
    have huniq : ∀ (k1 : Nat) (tck : timedConn) (ck : Conn), it.Items[k1]? = some tck →
        tck.conn = some ck →
        (∀ (j : Nat) (tc1 : timedConn) (c1 : Conn), j ≠ k1 → it.Items[j]? = some tc1 →
          tc1.conn = some c1 → ck.numStreams < c1.numStreams) → k = k1 := by
      intro k1 tck ck hk1 hck1 hless
      by_contra hne
      have h1 := hless k tc c hne hik hck
      have h2 := (hmin k1 tck ck hk1 hck1).1
      omega
    have hres : ∃ res : NewConnResult, newConn env it = .ok res ∧ res.chosen = k := by
      by_cases hp : c.pingFails
      · exact ⟨_, by simp only [newConn, hk, hck, hp, if_true]; rfl, rfl⟩
      · exact ⟨_, by simp only [newConn, hk, hck, hp]; rfl, rfl⟩
    obtain ⟨res, hres, hch⟩ := hres
    subst hch
    exact ⟨res, tc, c, hres, hik, hck, hmin, huniq⟩

/-- Witness of C9: with stream counts `[5, 2, 7]` the item at index 1 is chosen. -/
theorem newConn_least_loaded_witness :
    ∃ res : NewConnResult,
      newConn ⟨0, none⟩
          ⟨[⟨some ⟨0, 5, false, false⟩, 0⟩, ⟨some ⟨1, 2, false, false⟩, 0⟩,
            ⟨some ⟨2, 7, false, false⟩, 0⟩], 0⟩ = .ok res ∧
      res.chosen = 1 := by
  obtain ⟨res, tc, c, hres, -, -, -, huniq⟩ :=
    newConn_least_loaded ⟨0, none⟩
      ⟨[⟨some ⟨0, 5, false, false⟩, 0⟩, ⟨some ⟨1, 2, false, false⟩, 0⟩,
        ⟨some ⟨2, 7, false, false⟩, 0⟩], 0⟩
      ⟨1, ⟨some ⟨1, 2, false, false⟩, 0⟩, ⟨1, 2, false, false⟩, rfl, rfl, by decide⟩
  refine ⟨res, hres, huniq 1 ⟨some ⟨1, 2, false, false⟩, 0⟩ ⟨1, 2, false, false⟩ rfl rfl ?_⟩
  intro j tc1 c1 hj hget hc
  match j, hj, hget with
  | 0, _, hget =>
    simp only [List.getElem?_cons_zero, Option.some.injEq] at hget
    subst hget
    simp only [Option.some.injEq] at hc
    subst hc
    decide
  | 1, hj, _ => exact absurd rfl hj
  | 2, _, hget =>
    simp only [List.getElem?_cons_succ, List.getElem?_cons_zero, Option.some.injEq] at hget
    subst hget
    simp only [Option.some.injEq] at hc
    subst hc
    decide
  | n + 3, _, hget => simp at hget

/-- C10, evaluated on the code: in a pool whose only item has an absent handle
the selection loop finds no candidate, the round-robin fallback picks that
item, and `bestTC.conn.Ping(false)` is then called through the nil handle:
`newConn` panics instead of returning. -/
theorem newConn_absent_handle_panics (env : DialEnv) (expire : Int) (cursor : Nat) :
    newConn env ⟨[⟨none, expire⟩], cursor⟩ = .error .nilDereference :=
  newConn_all_absent env ⟨[⟨none, expire⟩], cursor⟩ (by simp) (by simp)

/-! ## Lemmas on the stream opener -/

theorem backoff_cons (i k : Nat) :
    (List.range (k + 1)).map (fun j => 100 * 2 ^ (i + j)) =
      (1 <<< i) * 100 :: (List.range k).map (fun j => 100 * 2 ^ (i + 1 + j)) := by
  rw [List.range_succ_eq_map]
  simp only [List.map_cons, List.map_map, Nat.add_zero, Nat.shiftLeft_eq, Nat.one_mul]
  congr 1
  · rw [Nat.mul_comm]
  · apply List.map_congr_left
    intro j _
    simp only [Function.comp_apply]
    rw [show i + 1 + j = i + j.succ by omega]

theorem newStrmLoop_success (env : StrmEnv) (k : Nat) :
    ∀ (i n : Nat) (sleeps : List Nat) (strm : Nat), k < n →
      (∀ j, j < k → attempt env (i + j) = .openFailed) →
      attempt env (i + k) = .opened strm →
      newStrmLoop env i n sleeps =
        .ok ⟨some strm, none, sleeps ++ (List.range k).map (fun j => 100 * 2 ^ (i + j)),
          i + k + 1⟩ := by
  induction k with
  | zero =>
    intro i n sleeps strm hn _ hk
    obtain ⟨n, rfl⟩ : ∃ m, n = m + 1 := ⟨n - 1, by omega⟩
    simp only [Nat.add_zero] at hk
    simp [newStrmLoop, hk]
  | succ k ih =>
    intro i n sleeps strm hn hfail hk
    obtain ⟨n, rfl⟩ : ∃ m, n = m + 1 := ⟨n - 1, by omega⟩
    have h0 : attempt env i = .openFailed := by simpa using hfail 0 (by omega)
    simp only [newStrmLoop, h0]
    rw [ih (i + 1) n _ strm (by omega)
      (fun j hj => by have := hfail (j + 1) (by omega); rwa [show i + 1 + j = i + (j + 1) by omega])
      (by rwa [show i + 1 + k = i + (k + 1) by omega]), backoff_cons,
      show i + 1 + k + 1 = i + (k + 1) + 1 by omega]
    simp

theorem newStrmLoop_exhausted (env : StrmEnv) (n : Nat) :
    ∀ (i : Nat) (sleeps : List Nat),
      (∀ j, j < n → attempt env (i + j) = .openFailed) →
      newStrmLoop env i n sleeps =
        .ok ⟨none, some ⟨maxRetries⟩,
          sleeps ++ (List.range n).map (fun j => 100 * 2 ^ (i + j)), i + n⟩ := by
  induction n with
  | zero => intro i sleeps _; simp [newStrmLoop]
  | succ n ih =>
    intro i sleeps hfail
    have h0 : attempt env i = .openFailed := by simpa using hfail 0 (by omega)
    simp only [newStrmLoop, h0]
    rw [ih (i + 1) _
      (fun j hj => by have := hfail (j + 1) (by omega); rwa [show i + 1 + j = i + (j + 1) by omega]),
      backoff_cons, show i + 1 + n = i + (n + 1) by omega]
    simp

theorem newStrmLoop_attempts (env : StrmEnv) (n : Nat) :
    ∀ (i : Nat) (sleeps : List Nat) (res : NewStrmResult),
      newStrmLoop env i n sleeps = .ok res → res.attempts ≤ i + n := by
  induction n with
  | zero =>
    intro i sleeps res h
    simp only [newStrmLoop, Except.ok.injEq] at h
    subst h
    simp
  | succ n ih =>
    intro i sleeps res h
    simp only [newStrmLoop] at h
    split at h
    · simp at h
    · have := ih _ _ _ h
      omega
    · simp only [Except.ok.injEq] at h
      subst h
      simp

/-! ## Lemmas on the autoscaler -/

theorem allOverloaded_iff (items : List timedConn) :
    allOverloaded items = true ↔
      ∀ tc ∈ items, ∀ c : Conn, tc.conn = some c → maxStreamsPerConn ≤ c.numStreams := by
  induction items with
  | nil => simp [allOverloaded]
  | cons tc rest ih =>
    cases hc : tc.conn with
    | none =>
      simp only [allOverloaded, hc, ih, List.mem_cons, forall_eq_or_imp, false_implies,
        implies_true, true_and, reduceCtorEq]
    | some c =>
      by_cases hlt : c.numStreams < maxStreamsPerConn
      · simp only [allOverloaded, hc, hlt, if_true, List.mem_cons, forall_eq_or_imp,
          Option.some.injEq, forall_eq', false_iff, not_and, Bool.false_eq_true]
        intro h
        exact absurd h (not_le.mpr hlt)
      · simp only [allOverloaded, hc, hlt, if_false, ih, List.mem_cons, forall_eq_or_imp,
          Option.some.injEq, forall_eq', not_lt.mp hlt, true_and]

theorem allOverloaded_not_idle (items : List timedConn) (h : allOverloaded items = true)
    (j : Nat) (tc : timedConn) (hj : items[j]? = some tc) : isIdle tc = false := by
  have hmem : tc ∈ items := List.getElem?_mem hj
  cases hc : tc.conn with
  | none => simp [isIdle, hc]
  | some c =>
    have := (allOverloaded_iff items).mp h tc hmem c hc
    simp only [isIdle, hc, decide_eq_false_iff_not]
    unfold maxStreamsPerConn at this
    omega

theorem scanIdle_spec (items : List timedConn) (minConns : Int) (k : Nat)
    (hk : k ≤ items.length) :
    (∀ i : Nat, scanIdle items minConns k = .found i →
      minConns ≤ (i : Int) ∧ i < k ∧ (∃ tc, items[i]? = some tc ∧ isIdle tc = true) ∧
      ∀ (j : Nat) (tc1 : timedConn), i < j → j < k → items[j]? = some tc1 →
        isIdle tc1 = false) ∧
    (scanIdle items minConns k = .notFound →
      ∀ (j : Nat) (tc1 : timedConn), minConns ≤ (j : Int) → j < k → items[j]? = some tc1 →
        isIdle tc1 = false) ∧
    (scanIdle items minConns k = .outOfRange →
      minConns ≤ -1 ∧
      ∀ (j : Nat) (tc1 : timedConn), j < k → items[j]? = some tc1 → isIdle tc1 = false) := by
  induction k with
  | zero =>
    have hs : scanIdle items minConns 0 =
        if (-1 : Int) ≥ minConns then .outOfRange else .notFound := rfl
    refine ⟨fun i hi => ?_, fun _ j tc1 _ hj => absurd hj (Nat.not_lt_zero j),
      fun ho => ⟨?_, fun j tc1 hj => absurd hj (Nat.not_lt_zero j)⟩⟩
    · rw [hs] at hi
      split at hi <;> simp at hi
    · rw [hs] at ho
      split at ho
      · assumption
      · simp at ho
  | succ k ih =>
    obtain ⟨ihf, ihn, iho⟩ := ih (by omega)
    have hget : items[k]? = some (items[k]) := List.getElem?_eq_getElem (by omega)
    by_cases hm : (k : Int) ≥ minConns
    · by_cases hidle : isIdle (items[k]) = true
      · have hs : scanIdle items minConns (k + 1) = .found k := by
          simp [scanIdle, hm, hget, hidle]
        rw [hs]
        refine ⟨?_, by simp, by simp⟩
        intro i hi
        simp only [Scan.found.injEq] at hi
        subst hi
        exact ⟨hm, by omega, ⟨_, hget, hidle⟩, fun j tc1 h1 h2 => by omega⟩
      · have hni : isIdle (items[k]) = false := by simpa using hidle
        have hs : scanIdle items minConns (k + 1) = scanIdle items minConns k := by
          simp [scanIdle, hm, hget, hni]
        rw [hs]
        have hlast : ∀ (j : Nat) (tc1 : timedConn), j < k + 1 → ¬ j < k →
            items[j]? = some tc1 → isIdle tc1 = false := by
          intro j tc1 h1 h2 hj
          have hjk : j = k := by omega
          subst hjk
          rw [hget] at hj
          simp only [Option.some.injEq] at hj
          rw [← hj]; exact hni
        refine ⟨?_, ?_, ?_⟩
        · intro i hi
          obtain ⟨h1, h2, h3, h4⟩ := ihf i hi
          refine ⟨h1, by omega, h3, fun j tc1 hij hjk hj => ?_⟩
          by_cases hlt : j < k
          · exact h4 j tc1 hij hlt hj
          · exact hlast j tc1 hjk hlt hj
        · intro hn j tc1 hmin hjk hj
          by_cases hlt : j < k
          · exact ihn hn j tc1 hmin hlt hj
          · exact hlast j tc1 hjk hlt hj
        · intro ho
          obtain ⟨h1, h2⟩ := iho ho
          refine ⟨h1, fun j tc1 hjk hj => ?_⟩
          by_cases hlt : j < k
          · exact h2 j tc1 hlt hj
          · exact hlast j tc1 hjk hlt hj
    · have hs : scanIdle items minConns (k + 1) = .notFound := by
        simp [scanIdle, hm]
      rw [hs]
      refine ⟨by simp, ?_, by simp⟩
      intro _ j tc1 hmin hjk _
      omega

theorem scanIdle_append (items : List timedConn) (tc : timedConn) (minConns : Int) (k : Nat)
    (hk : k ≤ items.length) :
    scanIdle (items ++ [tc]) minConns k = scanIdle items minConns k := by
  induction k with
  | zero => rfl
  | succ k ih =>
    have hget : (items ++ [tc])[k]? = items[k]? := List.getElem?_append_left (by omega)
    simp only [scanIdle, hget, ih (by omega)]

theorem scanIdle_allOverloaded (items : List timedConn) (minConns : Int)
    (h : allOverloaded items = true) (i : Nat) :
    scanIdle items minConns items.length ≠ .found i := by
  intro hf
  obtain ⟨-, -, ⟨tc, hget, hidle⟩, -⟩ := (scanIdle_spec items minConns _ (le_refl _)).1 i hf
  rw [allOverloaded_not_idle items h i tc hget] at hidle
  exact Bool.false_ne_true hidle

theorem scanIdle_found_iff (items : List timedConn) (minConns : Int) (i : Nat) :
    scanIdle items minConns items.length = .found i ↔
      (minConns ≤ (i : Int) ∧ i < items.length ∧ (∃ tc, items[i]? = some tc ∧ isIdle tc = true) ∧
        ∀ (j : Nat) (tc1 : timedConn), i < j → j < items.length → items[j]? = some tc1 →
          isIdle tc1 = false) := by
  obtain ⟨hf, hn, ho⟩ := scanIdle_spec items minConns _ (le_refl items.length)
  refine ⟨hf i, ?_⟩
  rintro ⟨hmin, hlt, ⟨tc, hget, hidle⟩, hhigh⟩
  cases hs : scanIdle items minConns items.length with
  | found i1 =>
    obtain ⟨-, hlt1, ⟨tc1, hget1, hidle1⟩, hhigh1⟩ := hf i1 hs
    rcases Nat.lt_trichotomy i i1 with h | h | h
    · rw [hhigh i1 tc1 h hlt1 hget1] at hidle1
      exact absurd hidle1 Bool.false_ne_true
    · rw [h]
    · rw [hhigh1 i tc h hlt hget] at hidle
      exact absurd hidle Bool.false_ne_true
  | notFound =>
    rw [hn hs i tc hmin hlt hget] at hidle
    exact absurd hidle Bool.false_ne_true
  | outOfRange =>
    rw [(ho hs).2 i tc hlt hget] at hidle
    exact absurd hidle Bool.false_ne_true

/-- The outcome of a tick in which `newTimedConn` is called: nothing is removed,
and the pool is unchanged or has the new item appended. -/
theorem scaleConnections_up (env : ScaleEnv) (c : Client)
    (hup : allOverloaded c.iter.Items = true ∧ (c.iter.Items.length : Int) < c.maxConns) :
    (scaleConnections env c).dialed = true ∧ (scaleConnections env c).removed = none ∧
    (env.dial = none → scaleConnections env c = ⟨c, true, none, none⟩) ∧
    (∀ tc, env.dial = some tc →
      (scaleConnections env c).client.iter.Items = c.iter.Items ++ [tc]) := by
  cases hd : env.dial with
  | none => simp [scaleConnections, hup, hd]
  | some tc =>
    have hscan := scanIdle_append c.iter.Items tc c.minConns _ (le_refl _)
    have hnf := scanIdle_allOverloaded c.iter.Items c.minConns hup.1
    simp only [scaleConnections, hup, and_self, if_true, hd, scaleDown, hscan]
    split
    · split
      · next i hi => exact absurd hi (hnf i)
      · simp
      · simp
    · simp

/-- The outcome of a tick in which `newTimedConn` is not called. -/
theorem scaleConnections_no_up (env : ScaleEnv) (c : Client)
    (hup : ¬ (allOverloaded c.iter.Items = true ∧ (c.iter.Items.length : Int) < c.maxConns)) :
    scaleConnections env c = scaleDown c c.iter.Items c.iter.Items.length false := by
  simp only [scaleConnections, hup, if_false]

theorem scaleDown_removed (c : Client) (i : Nat) :
    ((scaleDown c c.iter.Items c.iter.Items.length false).removed = some i ↔
      ((c.iter.Items.length : Int) > c.minConns ∧
        scanIdle c.iter.Items c.minConns c.iter.Items.length = .found i)) ∧
    ((scaleDown c c.iter.Items c.iter.Items.length false).removed = some i →
      (scaleDown c c.iter.Items c.iter.Items.length false).client.iter.Items =
        c.iter.Items.take i ++ c.iter.Items.drop (i + 1)) ∧
    ((scaleDown c c.iter.Items c.iter.Items.length false).removed = none →
      (scaleDown c c.iter.Items c.iter.Items.length false).client.iter.Items = c.iter.Items) ∧
    (scaleDown c c.iter.Items c.iter.Items.length false).dialed = false := by
  unfold scaleDown
  split
  · next hgt =>
    split
    · next i1 hi1 =>
      simp only [hgt, hi1, Option.some.injEq, Scan.found.injEq, true_and, reduceCtorEq,
        false_implies, and_true]
      exact fun h => by rw [h]
    · next hi1 => simp [hi1]
    · next hi1 => simp [hi1]
  · next hgt => simp [hgt]

/-! ## The stream opener: backoff -/

/-- C11: backoff schedule and exhaustion. `newStrm` makes at most 5 attempts;
when attempt `i < 5` is the first whose stream-open succeeds, it returns that
stream and no error after `i + 1` attempts, having slept `100 * 2^j` ms after
each failed attempt `j < i`, in order; when all 5 attempts fail it has slept
100, 200, 400, 800, 1600 ms in that order, 3100 ms in total, and returns no
stream and the error that carries the retry count 5. -/
theorem newStrm_backoff (env : StrmEnv) :
    (∀ res : NewStrmResult, newStrm env = .ok res → res.attempts ≤ 5) ∧
    (∀ (i strm : Nat), i < 5 → (∀ j, j < i → attempt env j = .openFailed) →
      attempt env i = .opened strm →
      newStrm env = .ok ⟨some strm, none, (List.range i).map (fun j => 100 * 2 ^ j), i + 1⟩) ∧
    ((∀ j, j < 5 → attempt env j = .openFailed) →
      newStrm env = .ok ⟨none, some ⟨5⟩, [100, 200, 400, 800, 1600], 5⟩) ∧
    ([100, 200, 400, 800, 1600] : List Nat).sum = 3100 := by
  refine ⟨?_, ?_, ?_, by decide⟩
  · intro res h
    simpa [maxRetries] using newStrmLoop_attempts env maxRetries 0 [] res h
  · intro i strm hi hfail hopen
    have := newStrmLoop_success env i 0 maxRetries [] strm hi
      (fun j hj => by simpa using hfail j hj) (by simpa using hopen)
    simpa [newStrm] using this
  · intro hfail
    have := newStrmLoop_exhausted env maxRetries 0 []
      (fun j hj => by simpa using hfail j hj)
    simpa [newStrm, maxRetries, List.range_succ] using this

/-- Witness of C11: with the first two stream-opens failing, the stream of the
third attempt is returned after sleeps of 100 and 200 ms. -/
theorem newStrm_backoff_witness :
    newStrm exampleStrmEnv = .ok ⟨some 7, none, [100, 200], 3⟩ :=
  (newStrm_backoff exampleStrmEnv).2.1 2 7 (by decide)
    (fun j hj => by interval_cases j <;> rfl) rfl

/-! ## The autoscaler: bounds, step size, scale-up and scale-down -/

/-- C12: the pool bounds are an invariant of the autoscaler. With
`maxConns = 2 * minConns` and `minConns ≤ len(items) ≤ maxConns` before a
tick, `scaleConnections` does not panic and the pool after it again satisfies
`minConns ≤ len(items) ≤ maxConns`, for every stream count, absent handle and
dial outcome; the bounds themselves are unchanged, and `New` sets
`maxConns = 2 * minConns`. -/
theorem scaleConnections_bounds (env : ScaleEnv) (c : Client)
    (hmax : c.maxConns = 2 * c.minConns) (hlo : c.minConns ≤ (c.iter.Items.length : Int))
    (hhi : (c.iter.Items.length : Int) ≤ c.maxConns) :
    (scaleConnections env c).panic = none ∧
    (scaleConnections env c).client.minConns = c.minConns ∧
    (scaleConnections env c).client.maxConns = c.maxConns ∧
    c.minConns ≤ ((scaleConnections env c).client.iter.Items.length : Int) ∧
    ((scaleConnections env c).client.iter.Items.length : Int) ≤ c.maxConns ∧
    (∀ n : Int, (New n).maxConns = 2 * (New n).minConns) := by
  have hnew : ∀ n : Int, (New n).maxConns = 2 * (New n).minConns := by
    intro n; simp only [New]; omega
  have hmin0 : 0 ≤ c.minConns := by omega
  obtain ⟨hf, hn, ho⟩ := scanIdle_spec c.iter.Items c.minConns _ (le_refl _)
  by_cases hup : allOverloaded c.iter.Items = true ∧ (c.iter.Items.length : Int) < c.maxConns
  · cases hd : env.dial with
    | none =>
      simp only [scaleConnections, hup, and_self, if_true, hd]
      exact ⟨by trivial, by trivial, by trivial, hlo, hhi, hnew⟩
    | some tc =>
      have hscan := scanIdle_append c.iter.Items tc c.minConns _ (le_refl _)
      have hnf := scanIdle_allOverloaded c.iter.Items c.minConns hup.1
      simp only [scaleConnections, hup, and_self, if_true, hd, scaleDown, hscan]
      split
      · split
        · next i hi => exact absurd hi (hnf i)
        · simp only [List.length_append, List.length_singleton, Nat.cast_add, Nat.cast_one]
          exact ⟨by trivial, by trivial, by trivial, by omega, by omega, hnew⟩
        · next hi => have := (ho hi).1; omega
      · simp only [List.length_append, List.length_singleton, Nat.cast_add, Nat.cast_one]
        exact ⟨by trivial, by trivial, by trivial, by omega, by omega, hnew⟩
  · simp only [scaleConnections, hup, if_false, scaleDown]
    split
    · next hgt =>
      split
      · next i hi =>
        obtain ⟨-, hlt, -, -⟩ := hf i hi
        simp only [List.length_append, List.length_take, List.length_drop, Nat.cast_add]
        refine ⟨by trivial, by trivial, by trivial, ?_, ?_, hnew⟩ <;> omega
      · exact ⟨by trivial, by trivial, by trivial, hlo, hhi, hnew⟩
      · next hi => have := (ho hi).1; omega
    · exact ⟨by trivial, by trivial, by trivial, hlo, hhi, hnew⟩

/-- Witness of C12: a pool of two live connections within the bounds 2 and 4. -/
theorem scaleConnections_bounds_witness :
    (2 : Int) ≤ ((scaleConnections ⟨some (liveConn 0)⟩
        ⟨⟨[liveConn 64, liveConn 64], 0⟩, 2, 4⟩).client.iter.Items.length : Int) ∧
    ((scaleConnections ⟨some (liveConn 0)⟩
        ⟨⟨[liveConn 64, liveConn 64], 0⟩, 2, 4⟩).client.iter.Items.length : Int) ≤ 4 :=
  ⟨(scaleConnections_bounds ⟨some (liveConn 0)⟩ ⟨⟨[liveConn 64, liveConn 64], 0⟩, 2, 4⟩
      (by decide) (by decide) (by decide)).2.2.2.1,
    (scaleConnections_bounds ⟨some (liveConn 0)⟩ ⟨⟨[liveConn 64, liveConn 64], 0⟩, 2, 4⟩
      (by decide) (by decide) (by decide)).2.2.2.2.1⟩

/-- C13: autoscale step size. One `scaleConnections` tick changes the length
of the pool by at most one, for every pool, bounds and dial outcome. -/
theorem scaleConnections_step (env : ScaleEnv) (c : Client) :
    (scaleConnections env c).client.iter.Items.length ≤ c.iter.Items.length + 1 ∧
    c.iter.Items.length ≤ (scaleConnections env c).client.iter.Items.length + 1 ∧
    Int.natAbs (((scaleConnections env c).client.iter.Items.length : Int) -
      (c.iter.Items.length : Int)) ≤ 1 := by
  have key : (scaleConnections env c).client.iter.Items.length ≤ c.iter.Items.length + 1 ∧
      c.iter.Items.length ≤ (scaleConnections env c).client.iter.Items.length + 1 := by
    obtain ⟨hf, -, -⟩ := scanIdle_spec c.iter.Items c.minConns _ (le_refl _)
    by_cases hup : allOverloaded c.iter.Items = true ∧ (c.iter.Items.length : Int) < c.maxConns
    · cases hd : env.dial with
      | none => simp [scaleConnections, hup, hd]
      | some tc =>
        have hscan := scanIdle_append c.iter.Items tc c.minConns _ (le_refl _)
        have hnf := scanIdle_allOverloaded c.iter.Items c.minConns hup.1
        simp only [scaleConnections, hup, and_self, if_true, hd, scaleDown, hscan]
        split
        · split
          · next i hi => exact absurd hi (hnf i)
          · simp only [List.length_append, List.length_singleton]; omega
          · simp only [List.length_append, List.length_singleton]; omega
        · simp only [List.length_append, List.length_singleton]; omega
    · simp only [scaleConnections, hup, if_false, scaleDown]
      split
      · split
        · next i hi =>
          obtain ⟨-, hlt, -, -⟩ := hf i hi
          simp only [List.length_append, List.length_take, List.length_drop]
          omega
        · exact ⟨Nat.le_succ _, Nat.le_succ _⟩
        · exact ⟨Nat.le_succ _, Nat.le_succ _⟩
      · exact ⟨Nat.le_succ _, Nat.le_succ _⟩
  exact ⟨key.1, key.2, by omega⟩

/-- C14: the scale-up rule. In one `scaleConnections` tick `newTimedConn` is
called iff every present connection has at least 64 streams and
`len(items) < maxConns`; when the dial succeeds the new item is appended at
the end, every existing item keeps its position and nothing is removed; when
the dial fails the tick ends with the client unchanged; when no dial is made
the pool does not grow. With `minConns = 2` and `maxConns = 4`, stream counts
`[64,64]` give length 3, then `[64,64,64]` give length 4, then
`[64,64,64,64]` leave the length at 4. -/
theorem scaleConnections_scale_up (env : ScaleEnv) (c : Client) :
    ((scaleConnections env c).dialed = true ↔
      ((∀ tc ∈ c.iter.Items, ∀ conn : Conn, tc.conn = some conn → 64 ≤ conn.numStreams) ∧
        (c.iter.Items.length : Int) < c.maxConns)) ∧
    (∀ tc : timedConn, (scaleConnections env c).dialed = true → env.dial = some tc →
      (scaleConnections env c).client.iter.Items = c.iter.Items ++ [tc] ∧
      (scaleConnections env c).removed = none) ∧
    ((scaleConnections env c).dialed = true → env.dial = none →
      scaleConnections env c = ⟨c, true, none, none⟩) ∧
    ((scaleConnections env c).dialed = false →
      (scaleConnections env c).client.iter.Items.length ≤ c.iter.Items.length) ∧
    (scaleConnections ⟨some (liveConn 0)⟩
        ⟨⟨[liveConn 64, liveConn 64], 0⟩, 2, 4⟩).client.iter.Items =
      [liveConn 64, liveConn 64, liveConn 0] ∧
    (scaleConnections ⟨some (liveConn 0)⟩
        ⟨⟨[liveConn 64, liveConn 64, liveConn 64], 0⟩, 2, 4⟩).client.iter.Items.length = 4 ∧
    (scaleConnections ⟨some (liveConn 0)⟩
        ⟨⟨[liveConn 64, liveConn 64, liveConn 64, liveConn 64], 0⟩, 2, 4⟩).client.iter.Items =
      [liveConn 64, liveConn 64, liveConn 64, liveConn 64] := by
  have hiff := allOverloaded_iff c.iter.Items
  simp only [maxStreamsPerConn] at hiff
  refine ⟨?_, ?_, ?_, ?_, by decide, by decide, by decide⟩
  · by_cases hup : allOverloaded c.iter.Items = true ∧ (c.iter.Items.length : Int) < c.maxConns
    · have h1 := (scaleConnections_up env c hup).1
      simp only [h1, true_iff]
      exact ⟨hiff.mp hup.1, hup.2⟩
    · rw [scaleConnections_no_up env c hup, (scaleDown_removed c 0).2.2.2]
      simp only [Bool.false_eq_true, false_iff]
      intro h
      exact hup ⟨hiff.mpr h.1, h.2⟩
  · intro tc hdial hd
    by_cases hup : allOverloaded c.iter.Items = true ∧ (c.iter.Items.length : Int) < c.maxConns
    · exact ⟨(scaleConnections_up env c hup).2.2.2 tc hd, (scaleConnections_up env c hup).2.1⟩
    · rw [scaleConnections_no_up env c hup, (scaleDown_removed c 0).2.2.2] at hdial
      exact absurd hdial Bool.false_ne_true
  · intro hdial hd
    by_cases hup : allOverloaded c.iter.Items = true ∧ (c.iter.Items.length : Int) < c.maxConns
    · exact (scaleConnections_up env c hup).2.2.1 hd
    · rw [scaleConnections_no_up env c hup, (scaleDown_removed c 0).2.2.2] at hdial
      exact absurd hdial Bool.false_ne_true
  · intro hdial
    by_cases hup : allOverloaded c.iter.Items = true ∧ (c.iter.Items.length : Int) < c.maxConns
    · rw [(scaleConnections_up env c hup).1] at hdial
      exact absurd hdial.symm Bool.false_ne_true
    · rw [scaleConnections_no_up env c hup]
      cases hr : (scaleDown c c.iter.Items c.iter.Items.length false).removed with
      | none => rw [(scaleDown_removed c 0).2.2.1 hr]
      | some i =>
        rw [(scaleDown_removed c i).2.1 hr]
        simp only [List.length_append, List.length_take, List.length_drop]
        omega

/-- Witness of C14: a pool of two connections with 64 streams each, below
`maxConns = 4`, is dialed for, and the new item is appended. -/
theorem scaleConnections_scale_up_witness :
    (scaleConnections ⟨some (liveConn 0)⟩ ⟨⟨[liveConn 64, liveConn 64], 0⟩, 2, 4⟩).dialed =
      true ∧
    (scaleConnections ⟨some (liveConn 0)⟩
        ⟨⟨[liveConn 64, liveConn 64], 0⟩, 2, 4⟩).client.iter.Items =
      [liveConn 64, liveConn 64] ++ [liveConn 0] :=
  ⟨by decide,
    ((scaleConnections_scale_up ⟨some (liveConn 0)⟩
      ⟨⟨[liveConn 64, liveConn 64], 0⟩, 2, 4⟩).2.1 (liveConn 0) (by decide) rfl).1⟩

/-- C15: the scale-down rule. In one `scaleConnections` tick the item removed
is exactly the highest-index idle item (present handle, no stream) at an index
`≥ minConns`, if there is one: then no dial was made, one item is removed, the
others keep their order and every index below `minConns` is kept; otherwise
nothing is removed, and nothing is removed when `len(items) ≤ minConns`. With
`minConns = 1`, stream counts `[5,0,0]` become `[5,0]` by removing index 2,
then `[5]`, then stay `[5]`. -/
theorem scaleConnections_scale_down (env : ScaleEnv) (c : Client) :
    (∀ i : Nat, (scaleConnections env c).removed = some i ↔
      (c.minConns ≤ (i : Int) ∧ i < c.iter.Items.length ∧
        (∃ tc, c.iter.Items[i]? = some tc ∧ isIdle tc = true) ∧
        ∀ (j : Nat) (tc1 : timedConn), i < j → j < c.iter.Items.length →
          c.iter.Items[j]? = some tc1 → isIdle tc1 = false)) ∧
    (∀ i : Nat, (scaleConnections env c).removed = some i →
      (scaleConnections env c).dialed = false ∧
      (scaleConnections env c).client.iter.Items =
        c.iter.Items.take i ++ c.iter.Items.drop (i + 1) ∧
      (scaleConnections env c).client.iter.Items.length + 1 = c.iter.Items.length ∧
      List.Sublist (scaleConnections env c).client.iter.Items c.iter.Items) ∧
    ((scaleConnections env c).removed = none → (scaleConnections env c).dialed = false →
      (scaleConnections env c).client.iter.Items = c.iter.Items) ∧
    ((c.iter.Items.length : Int) ≤ c.minConns → (scaleConnections env c).removed = none) ∧
    scaleConnections ⟨none⟩ ⟨⟨[liveConn 5, liveConn 0, liveConn 0], 0⟩, 1, 2⟩ =
      ⟨⟨⟨[liveConn 5, liveConn 0], 0⟩, 1, 2⟩, false, some 2, none⟩ ∧
    scaleConnections ⟨none⟩ ⟨⟨[liveConn 5, liveConn 0], 0⟩, 1, 2⟩ =
      ⟨⟨⟨[liveConn 5], 0⟩, 1, 2⟩, false, some 1, none⟩ ∧
    scaleConnections ⟨none⟩ ⟨⟨[liveConn 5], 0⟩, 1, 2⟩ =
      ⟨⟨⟨[liveConn 5], 0⟩, 1, 2⟩, false, none, none⟩ := by
  have hrem : ∀ i : Nat, (scaleConnections env c).removed = some i →
      ¬ (allOverloaded c.iter.Items = true ∧ (c.iter.Items.length : Int) < c.maxConns) := by
    intro i hi hup
    rw [(scaleConnections_up env c hup).2.1] at hi
    cases hi
  refine ⟨?_, ?_, ?_, ?_, by decide, by decide, by decide⟩
  · intro i
    rw [← scanIdle_found_iff]
    by_cases hup : allOverloaded c.iter.Items = true ∧ (c.iter.Items.length : Int) < c.maxConns
    · rw [(scaleConnections_up env c hup).2.1]
      simp only [reduceCtorEq, false_iff]
      exact scanIdle_allOverloaded c.iter.Items c.minConns hup.1 i
    · rw [scaleConnections_no_up env c hup, (scaleDown_removed c i).1]
      refine ⟨fun h => h.2, fun h => ⟨?_, h⟩⟩
      obtain ⟨h1, h2, -, -⟩ := (scanIdle_found_iff c.iter.Items c.minConns i).mp h
      omega
  · intro i hi
    have hup := hrem i hi
    rw [scaleConnections_no_up env c hup] at hi ⊢
    have hlt : i < c.iter.Items.length := by
      have := ((scaleDown_removed c i).1.mp hi).2
      exact ((scanIdle_found_iff c.iter.Items c.minConns i).mp this).2.1
    rw [(scaleDown_removed c i).2.1 hi]
    refine ⟨(scaleDown_removed c i).2.2.2, rfl, ?_, ?_⟩
    · simp only [List.length_append, List.length_take, List.length_drop]
      omega
    · rw [← List.eraseIdx_eq_take_drop_succ]
      exact List.eraseIdx_sublist _ _
  · intro hr hd
    by_cases hup : allOverloaded c.iter.Items = true ∧ (c.iter.Items.length : Int) < c.maxConns
    · rw [(scaleConnections_up env c hup).1] at hd
      exact absurd hd.symm Bool.false_ne_true
    · rw [scaleConnections_no_up env c hup] at hr ⊢
      exact (scaleDown_removed c 0).2.2.1 hr
  · intro hle
    by_cases hup : allOverloaded c.iter.Items = true ∧ (c.iter.Items.length : Int) < c.maxConns
    · exact (scaleConnections_up env c hup).2.1
    · rw [scaleConnections_no_up env c hup]
      cases hr : (scaleDown c c.iter.Items c.iter.Items.length false).removed with
      | none => rfl
      | some i =>
        have := ((scaleDown_removed c i).1.mp hr).1
        omega

/-- Witness of C15: in the pool `[5,0,0]` with `minConns = 1` the item at index 2
is the highest idle one and is the one removed. -/
theorem scaleConnections_scale_down_witness :
    (scaleConnections ⟨none⟩ ⟨⟨[liveConn 5, liveConn 0, liveConn 0], 0⟩, 1, 2⟩).removed =
      some 2 ∧
    (scaleConnections ⟨none⟩
        ⟨⟨[liveConn 5, liveConn 0, liveConn 0], 0⟩, 1, 2⟩).client.iter.Items =
      [liveConn 5, liveConn 0] :=
  ⟨by decide,
    ((scaleConnections_scale_down ⟨none⟩
      ⟨⟨[liveConn 5, liveConn 0, liveConn 0], 0⟩, 1, 2⟩).2.1 2 (by decide)).2.1⟩

/-! ## Lemmas on the window auto-tuner -/

theorem truncToInt_shrink (v : Int) (hv : 0 ≤ v) :
    truncToInt ((v : ℚ) * shrinkFactor) = 3 * v / 4 := by
  have h0 : (0 : ℚ) ≤ (v : ℚ) * shrinkFactor := by
    have : (0 : ℚ) ≤ (v : ℚ) := by exact_mod_cast hv
    unfold shrinkFactor
    positivity
  have he : (v : ℚ) * shrinkFactor = ((3 * v : Int) : ℚ) / ((4 : Nat) : ℚ) := by
    unfold shrinkFactor
    push_cast
    ring
  rw [truncToInt, if_pos h0, he, Rat.floor_intCast_div_natCast]
  rfl

theorem truncToInt_grow (v : Int) (hv : 0 ≤ v) :
    truncToInt ((v : ℚ) * growFactor) = 3 * v / 2 := by
  have h0 : (0 : ℚ) ≤ (v : ℚ) * growFactor := by
    have : (0 : ℚ) ≤ (v : ℚ) := by exact_mod_cast hv
    unfold growFactor
    positivity
  have he : (v : ℚ) * growFactor = ((3 * v : Int) : ℚ) / ((2 : Nat) : ℚ) := by
    unfold growFactor
    push_cast
    ring
  rw [truncToInt, if_pos h0, he, Rat.floor_intCast_div_natCast]
  rfl

theorem truncToInt_le (x : ℚ) (hx : 0 ≤ x) : ((truncToInt x : Int) : ℚ) ≤ x := by
  rw [truncToInt, if_pos hx]
  exact Int.floor_le x

theorem retransRate_gt_iff (snap : Snmp) :
    retransRate snap > 0.05 ↔ (0 < snap.OutSegs ∧ snap.OutSegs < 20 * snap.RetransSegs) := by
  unfold retransRate
  by_cases ho : snap.OutSegs > 0
  · have hpos : (0 : ℚ) < (snap.OutSegs : ℚ) := by exact_mod_cast ho
    simp only [ho, if_true, true_and, gt_iff_lt]
    rw [lt_div_iff₀ hpos]
    constructor
    · intro h
      have h2 : (snap.OutSegs : ℚ) < 20 * (snap.RetransSegs : ℚ) := by linarith
      exact_mod_cast h2
    · intro h
      have h2 : (snap.OutSegs : ℚ) < 20 * (snap.RetransSegs : ℚ) := by exact_mod_cast h
      linarith
  · simp only [ho, if_false, false_and, iff_false, gt_iff_lt, not_lt]
    norm_num

theorem clamp_bounds (v lo hi : Int) (h : lo ≤ hi) : lo ≤ clamp v lo hi ∧ clamp v lo hi ≤ hi := by
  unfold clamp
  split
  · exact ⟨le_refl _, h⟩
  · split <;> constructor <;> omega

theorem tune_raw (t : AutoTuner) (snap : Snmp) :
    (retransRate snap > 0.05 →
      (t.tune snap).rawSnd = truncToInt ((t.curSnd : ℚ) * shrinkFactor) ∧
      (t.tune snap).rawRcv = truncToInt ((t.curRcv : ℚ) * shrinkFactor)) ∧
    (¬ retransRate snap > 0.05 → 0 < totalDelta t snap →
      (t.tune snap).rawSnd = truncToInt ((t.curSnd : ℚ) * growFactor) ∧
      (t.tune snap).rawRcv = truncToInt ((t.curRcv : ℚ) * growFactor)) ∧
    (¬ retransRate snap > 0.05 → totalDelta t snap = 0 →
      (t.tune snap).rawSnd = t.curSnd ∧ (t.tune snap).rawRcv = t.curRcv) := by
  refine ⟨fun h => ?_, fun h hd => ?_, fun h hd => ?_⟩
  · simp only [AutoTuner.tune, h, if_true, and_self]
  · simp only [AutoTuner.tune, h, if_false, hd, gt_iff_lt, if_true, and_self]
  · simp only [AutoTuner.tune, h, if_false, hd, gt_iff_lt, lt_self_iff_false, and_self]

theorem tune_tuner (t : AutoTuner) (snap : Snmp) :
    (t.tune snap).tuner =
      { maxSnd := t.maxSnd, maxRcv := t.maxRcv,
        curSnd := clamp (t.tune snap).rawSnd minWindow t.maxSnd,
        curRcv := clamp (t.tune snap).rawRcv minWindow t.maxRcv,
        lastSent := snap.BytesSent, lastRecv := snap.BytesReceived } := rfl

theorem tune_inBounds (t : AutoTuner) (snap : Snmp) (hs : minWindow ≤ t.maxSnd)
    (hr : minWindow ≤ t.maxRcv) :
    (t.tune snap).tuner.InBounds ∧ (t.tune snap).tuner.maxSnd = t.maxSnd ∧
      (t.tune snap).tuner.maxRcv = t.maxRcv := by
  rw [tune_tuner]
  exact ⟨⟨(clamp_bounds _ _ _ hs).1, (clamp_bounds _ _ _ hs).2, (clamp_bounds _ _ _ hr).1,
    (clamp_bounds _ _ _ hr).2⟩, rfl, rfl⟩

theorem run_inBounds (snaps : List Snmp) (t : AutoTuner) (hs : minWindow ≤ t.maxSnd)
    (hr : minWindow ≤ t.maxRcv) (hb : t.InBounds) :
    (t.run snaps).InBounds ∧ (t.run snaps).maxSnd = t.maxSnd ∧
      (t.run snaps).maxRcv = t.maxRcv := by
  induction snaps generalizing t with
  | nil => exact ⟨hb, rfl, rfl⟩
  | cons snap snaps ih =>
    obtain ⟨h1, h2, h3⟩ := tune_inBounds t snap hs hr
    have := ih (t.tune snap).tuner (by rw [h2]; exact hs) (by rw [h3]; exact hr) h1
    simp only [AutoTuner.run, List.foldl_cons] at this ⊢
    rw [h2, h3] at this
    exact this

theorem totalDelta_eq (t : AutoTuner) (snap : Snmp) (h1 : t.lastSent ≤ snap.BytesSent)
    (h2 : t.lastRecv ≤ snap.BytesReceived)
    (h3 : (snap.BytesSent - t.lastSent) + (snap.BytesReceived - t.lastRecv) < 2 ^ 64) :
    totalDelta t snap = (snap.BytesSent - t.lastSent) + (snap.BytesReceived - t.lastRecv) := by
  unfold totalDelta addU64 subU64
  norm_num at *
  omega

theorem truncToInt_nonpos (x : ℚ) (hx : x < 0) : truncToInt x ≤ 0 := by
  rw [truncToInt, if_neg (not_le.mpr hx)]
  exact Int.ceil_le.mpr (by exact_mod_cast le_of_lt hx)

theorem clamp_grow (cur hi : Int) (h : cur ≤ hi) :
    cur ≤ clamp (truncToInt ((cur : ℚ) * growFactor)) minWindow hi ∧
    (clamp (truncToInt ((cur : ℚ) * growFactor)) minWindow hi = cur → cur = hi) := by
  by_cases h0 : 0 ≤ cur
  · rw [truncToInt_grow _ h0]
    unfold clamp minWindow
    split
    · constructor <;> omega
    · split <;> constructor <;> omega
  · have hq : (cur : ℚ) * growFactor < 0 := by
      have : (cur : ℚ) < 0 := by exact_mod_cast not_le.mp h0
      unfold growFactor
      linarith
    have hneg := truncToInt_nonpos _ hq
    unfold clamp minWindow
    rw [if_pos (by omega)]
    constructor <;> omega

/-! ## The window auto-tuner: bounds, shrink and growth -/

/-- C16, as amended: the window bounds are an invariant of the auto-tuner when
both configured maxima are at least 128. The tuner built by `NewAutoTuner`
starts with each window at half its maximum, floored at 128, programs the
connection with that pair, and its state at the start and after every
sequence of `tune` ticks, for every counter snapshot, satisfies
`128 ≤ curSnd ≤ maxSnd` and `128 ≤ curRcv ≤ maxRcv`. -/
theorem tuner_bounds (maxSnd maxRcv : Int) (hs : 128 ≤ maxSnd) (hr : 128 ≤ maxRcv) :
    (NewAutoTuner maxSnd maxRcv).1.curSnd = max (maxSnd / 2) 128 ∧
    (NewAutoTuner maxSnd maxRcv).1.curRcv = max (maxRcv / 2) 128 ∧
    (NewAutoTuner maxSnd maxRcv).2 =
      ((NewAutoTuner maxSnd maxRcv).1.curSnd, (NewAutoTuner maxSnd maxRcv).1.curRcv) ∧
    (NewAutoTuner maxSnd maxRcv).1.InBounds ∧
    (∀ snaps : List Snmp,
      128 ≤ ((NewAutoTuner maxSnd maxRcv).1.run snaps).curSnd ∧
      ((NewAutoTuner maxSnd maxRcv).1.run snaps).curSnd ≤ maxSnd ∧
      128 ≤ ((NewAutoTuner maxSnd maxRcv).1.run snaps).curRcv ∧
      ((NewAutoTuner maxSnd maxRcv).1.run snaps).curRcv ≤ maxRcv) ∧
    (∀ (t : AutoTuner) (snap : Snmp), 128 ≤ t.maxSnd → 128 ≤ t.maxRcv →
      (t.tune snap).tuner.InBounds) := by
  have hds : Int.tdiv maxSnd 2 = maxSnd / 2 := Int.tdiv_eq_ediv (by omega) (by decide)
  have hdr : Int.tdiv maxRcv 2 = maxRcv / 2 := Int.tdiv_eq_ediv (by omega) (by decide)
  have hcs : (NewAutoTuner maxSnd maxRcv).1.curSnd = max (maxSnd / 2) 128 := by
    simp only [NewAutoTuner, hds, minWindow]
    split <;> omega
  have hcr : (NewAutoTuner maxSnd maxRcv).1.curRcv = max (maxRcv / 2) 128 := by
    simp only [NewAutoTuner, hdr, minWindow]
    split <;> omega
  have hb : (NewAutoTuner maxSnd maxRcv).1.InBounds := by
    refine ⟨?_, ?_, ?_, ?_⟩
    · rw [hcs]; unfold minWindow; omega
    · rw [hcs]; show max (maxSnd / 2) 128 ≤ maxSnd; omega
    · rw [hcr]; unfold minWindow; omega
    · rw [hcr]; show max (maxRcv / 2) 128 ≤ maxRcv; omega
  refine ⟨hcs, hcr, rfl, hb, ?_, ?_⟩
  · intro snaps
    obtain ⟨⟨h1, h2, h3, h4⟩, h5, h6⟩ :=
      run_inBounds snaps (NewAutoTuner maxSnd maxRcv).1 hs hr hb
    rw [h5] at h2
    rw [h6] at h4
    exact ⟨h1, h2, h3, h4⟩
  · intro t snap h1 h2
    exact (tune_inBounds t snap h1 h2).1

/-- Witness of C16, as amended: maxima 1024 and 256 give the initial windows
512 and 128, within their bounds. -/
theorem tuner_bounds_witness :
    (NewAutoTuner 1024 256).1.curSnd = 512 ∧ (NewAutoTuner 1024 256).1.curRcv = 128 ∧
    (NewAutoTuner 1024 256).1.InBounds :=
  ⟨by decide, by decide, (tuner_bounds 1024 256 (by decide) (by decide)).2.2.2.1⟩

/-- C16, as stated, fails: with the configured maxima 100 and 100 the tuner
built by `NewAutoTuner` starts with both windows at 128, above their maxima. -/
theorem tuner_bounds_counterexample :
    (NewAutoTuner 100 100).1.maxSnd = 100 ∧ (NewAutoTuner 100 100).1.curSnd = 128 ∧
    ¬ ((NewAutoTuner 100 100).1.curSnd ≤ (NewAutoTuner 100 100).1.maxSnd) ∧
    ¬ (NewAutoTuner 100 100).1.InBounds := by
  decide

/-- C17: window shrink on loss. For segment counters below `2^50` and windows
below `2^51` in absolute value, where the `float64` arithmetic of `tune` is
exact: in a `tune` tick whose snapshot has `OutSegs > 0` and
`RetransSegs / OutSegs > 0.05`, whatever the byte counters are, each window is
computed before the clamp as the integer truncation of `0.75 * old`, which for
a non-negative window is the integer quotient `3 * old / 4` and is at most
`0.75 * old`, and the stored window is that number passed through `clamp` with
128 and the maximum; with `OutSegs = 0` the rate is 0, with no division, and
the shrink branch is not taken: each window is computed as `1.5 * old`
truncated when bytes moved and as `old` otherwise. -/
theorem tune_shrink_on_loss (t : AutoTuner) (snap : Snmp) (hcnt : snap.InFloatRange)
    (hwin : t.InFloatRange) (hout : 0 < snap.OutSegs)
    (hrate : (snap.RetransSegs : ℚ) / (snap.OutSegs : ℚ) > 0.05) :
    (t.tune snap).rawSnd = truncToInt ((t.curSnd : ℚ) * 0.75) ∧
    (t.tune snap).rawRcv = truncToInt ((t.curRcv : ℚ) * 0.75) ∧
    (0 ≤ t.curSnd → (t.tune snap).rawSnd = 3 * t.curSnd / 4 ∧
      (((t.tune snap).rawSnd : Int) : ℚ) ≤ 0.75 * (t.curSnd : ℚ)) ∧
    (0 ≤ t.curRcv → (t.tune snap).rawRcv = 3 * t.curRcv / 4 ∧
      (((t.tune snap).rawRcv : Int) : ℚ) ≤ 0.75 * (t.curRcv : ℚ)) ∧
    (t.tune snap).tuner.curSnd = clamp (t.tune snap).rawSnd 128 t.maxSnd ∧
    (t.tune snap).tuner.curRcv = clamp (t.tune snap).rawRcv 128 t.maxRcv ∧
    (∀ snap0 : Snmp, snap0.OutSegs = 0 →
      retransRate snap0 = 0 ∧
      (t.tune snap0).rawSnd =
        (if 0 < totalDelta t snap0 then truncToInt ((t.curSnd : ℚ) * 1.5) else t.curSnd) ∧
      (t.tune snap0).rawRcv =
        (if 0 < totalDelta t snap0 then truncToInt ((t.curRcv : ℚ) * 1.5) else t.curRcv)) := by
  have hgt : retransRate snap > 0.05 := by
    simp only [retransRate, hout, if_true]
    exact hrate
  obtain ⟨h1, h2⟩ := (tune_raw t snap).1 hgt
  have h75 : shrinkFactor = 0.75 := rfl
  have h15 : growFactor = 1.5 := rfl
  have hle : ∀ v : Int, 0 ≤ v →
      ((truncToInt ((v : ℚ) * shrinkFactor) : Int) : ℚ) ≤ 0.75 * (v : ℚ) := by
    intro v hv
    have hq : (0 : ℚ) ≤ (v : ℚ) * shrinkFactor := by
      have : (0 : ℚ) ≤ (v : ℚ) := by exact_mod_cast hv
      unfold shrinkFactor; positivity
    have := truncToInt_le _ hq
    rw [h75] at this ⊢
    linarith
  refine ⟨by rw [h1, h75], by rw [h2, h75], fun hs => ?_, fun hr => ?_, rfl, rfl, ?_⟩
  · exact ⟨by rw [h1, truncToInt_shrink _ hs], by rw [h1]; exact hle _ hs⟩
  · exact ⟨by rw [h2, truncToInt_shrink _ hr], by rw [h2]; exact hle _ hr⟩
  · intro snap0 h0
    have hr0 : retransRate snap0 = 0 := by simp [retransRate, h0]
    have hng : ¬ retransRate snap0 > 0.05 := by rw [hr0]; norm_num
    refine ⟨hr0, ?_⟩
    by_cases hd : 0 < totalDelta t snap0
    · obtain ⟨g1, g2⟩ := (tune_raw t snap0).2.1 hng hd
      rw [g1, g2, if_pos hd, if_pos hd, h15]
      exact ⟨rfl, rfl⟩
    · obtain ⟨g1, g2⟩ := (tune_raw t snap0).2.2 hng (by omega)
      rw [g1, g2, if_neg hd, if_neg hd]
      exact ⟨rfl, rfl⟩

/-- Witness of C17: with 6 retransmitted segments out of 100 the windows 512
and 512 are computed as 384 and 384. -/
theorem tune_shrink_on_loss_witness :
    ((NewAutoTuner 1024 1024).1.tune ⟨10, 10, 6, 100⟩).rawSnd = 3 * 512 / 4 ∧
    ((NewAutoTuner 1024 1024).1.tune ⟨10, 10, 6, 100⟩).rawRcv = 3 * 512 / 4 :=
  ⟨((tune_shrink_on_loss (NewAutoTuner 1024 1024).1 ⟨10, 10, 6, 100⟩ (by decide)
      (by decide) (by decide) (by norm_num)).2.2.1 (by decide)).1,
    ((tune_shrink_on_loss (NewAutoTuner 1024 1024).1 ⟨10, 10, 6, 100⟩ (by decide)
      (by decide) (by decide) (by norm_num)).2.2.2.1 (by decide)).1⟩

/-- C18, as amended: window growth on throughput. For segment counters below
`2^50` and windows below `2^51` in absolute value, where the `float64`
arithmetic of `tune` is exact: in a `tune` tick with retransmission rate at
most 0.05 and `sent_delta + recv_delta > 0`, on a tuner whose windows do not
exceed their maxima, the new `curSnd` is at least the old one and equals it
only when the old one equals `maxSnd`, and likewise for `curRcv` and `maxRcv`;
the byte delta is the plain sum of the two differences when the counters did
not go back and the sum is below `2^64`. -/
theorem tune_grow_on_throughput (t : AutoTuner) (snap : Snmp) (hcnt : snap.InFloatRange)
    (hwin : t.InFloatRange) (hrate : retransRate snap ≤ 0.05) (hd : 0 < totalDelta t snap)
    (hs : t.curSnd ≤ t.maxSnd) (hr : t.curRcv ≤ t.maxRcv) :
    t.curSnd ≤ (t.tune snap).tuner.curSnd ∧
    ((t.tune snap).tuner.curSnd = t.curSnd → t.curSnd = t.maxSnd) ∧
    t.curRcv ≤ (t.tune snap).tuner.curRcv ∧
    ((t.tune snap).tuner.curRcv = t.curRcv → t.curRcv = t.maxRcv) ∧
    (t.lastSent ≤ snap.BytesSent → t.lastRecv ≤ snap.BytesReceived →
      (snap.BytesSent - t.lastSent) + (snap.BytesReceived - t.lastRecv) < 2 ^ 64 →
      totalDelta t snap =
        (snap.BytesSent - t.lastSent) + (snap.BytesReceived - t.lastRecv)) := by
  obtain ⟨g1, g2⟩ := (tune_raw t snap).2.1 (not_lt.mpr hrate) hd
  rw [tune_tuner]
  simp only [g1, g2]
  exact ⟨(clamp_grow _ _ hs).1, (clamp_grow _ _ hs).2, (clamp_grow _ _ hr).1,
    (clamp_grow _ _ hr).2, totalDelta_eq t snap⟩

/-- Witness of C18, as amended: with no retransmission and 20 bytes moved, the
windows 512 and 512 under the maxima 1024 do not shrink. -/
theorem tune_grow_on_throughput_witness :
    (512 : Int) ≤ ((⟨1024, 1024, 512, 512, 0, 0⟩ : AutoTuner).tune ⟨10, 10, 0, 100⟩).tuner.curSnd ∧
    (512 : Int) ≤ ((⟨1024, 1024, 512, 512, 0, 0⟩ : AutoTuner).tune ⟨10, 10, 0, 100⟩).tuner.curRcv :=
  ⟨(tune_grow_on_throughput ⟨1024, 1024, 512, 512, 0, 0⟩ ⟨10, 10, 0, 100⟩
      (by decide) (by decide) (by norm_num [retransRate]) (by decide) (by decide)
      (by decide)).1,
    (tune_grow_on_throughput ⟨1024, 1024, 512, 512, 0, 0⟩ ⟨10, 10, 0, 100⟩
      (by decide) (by decide) (by norm_num [retransRate]) (by decide) (by decide)
      (by decide)).2.2.1⟩

/-- C18, as stated, fails: the tuner built with the maxima 100 and 100 starts
with both windows at 128; a tick with no retransmission and 20 bytes moved
computes 192 and stores 100, below the old window. The counters and the
windows are within the range on which the `float64` arithmetic is exact. -/
theorem tune_grow_on_throughput_counterexample :
    retransRate ⟨10, 10, 0, 100⟩ ≤ 0.05 ∧
    0 < totalDelta (NewAutoTuner 100 100).1 ⟨10, 10, 0, 100⟩ ∧
    (NewAutoTuner 100 100).1.curSnd = 128 ∧
    ((NewAutoTuner 100 100).1.tune ⟨10, 10, 0, 100⟩).rawSnd = 192 ∧
    ((NewAutoTuner 100 100).1.tune ⟨10, 10, 0, 100⟩).tuner.curSnd = 100 ∧
    ¬ ((NewAutoTuner 100 100).1.curSnd ≤
      ((NewAutoTuner 100 100).1.tune ⟨10, 10, 0, 100⟩).tuner.curSnd) ∧
    Snmp.InFloatRange ⟨10, 10, 0, 100⟩ ∧ (NewAutoTuner 100 100).1.InFloatRange := by
  have hrate : ¬ retransRate ⟨10, 10, 0, 100⟩ > 0.05 := by norm_num [retransRate]
  have hd : 0 < totalDelta (NewAutoTuner 100 100).1 ⟨10, 10, 0, 100⟩ := by decide
  obtain ⟨g1, -⟩ := (tune_raw (NewAutoTuner 100 100).1 ⟨10, 10, 0, 100⟩).2.1 hrate hd
  have hc : (NewAutoTuner 100 100).1.curSnd = 128 := by decide
  have hraw : ((NewAutoTuner 100 100).1.tune ⟨10, 10, 0, 100⟩).rawSnd = 192 := by
    rw [g1, truncToInt_grow _ (by decide), hc]
    decide
  have hnew : ((NewAutoTuner 100 100).1.tune ⟨10, 10, 0, 100⟩).tuner.curSnd = 100 := by
    rw [tune_tuner]
    simp only [hraw]
    decide
  refine ⟨not_lt.mp hrate, hd, hc, hraw, hnew, ?_, by decide, by decide⟩
  rw [hnew, hc]
  decide

/-! ## The packet-capture configuration: validation and defaults -/

/-- C19: PCAP validation ranges. `validate` returns no error iff
`1024 ≤ Sockbuf ≤ 100*1024*1024`, `256 ≤ SnapLen ≤ 65536` and
`0 ≤ DSCP ≤ 63`; the errors do not depend on whether the socket buffer is a
power of two, and the buffer of 3000 bytes, not a power of two, is warned
about and passes. -/
theorem validate_ranges (p : PCAP) :
    (p.validate = [] ↔
      (1024 ≤ p.Sockbuf ∧ p.Sockbuf ≤ 100 * 1024 * 1024 ∧ 256 ≤ p.SnapLen ∧
        p.SnapLen ≤ 65536 ∧ 0 ≤ p.DSCP ∧ p.DSCP ≤ 63)) ∧
    ((1024 ≤ p.Sockbuf ∧ p.Sockbuf ≤ 100 * 1024 * 1024 ∧ 256 ≤ p.SnapLen ∧
        p.SnapLen ≤ 65536 ∧ 0 ≤ p.DSCP ∧ p.DSCP ≤ 63) →
      p.warnsNotPowerOfTwo = true → p.validate = []) ∧
    (PCAP.warnsNotPowerOfTwo ⟨3000, false, 1600, 0⟩ = true ∧
      PCAP.validate ⟨3000, false, 1600, 0⟩ = []) := by
  have hiff : p.validate = [] ↔
      (1024 ≤ p.Sockbuf ∧ p.Sockbuf ≤ 100 * 1024 * 1024 ∧ 256 ≤ p.SnapLen ∧
        p.SnapLen ≤ 65536 ∧ 0 ≤ p.DSCP ∧ p.DSCP ≤ 63) := by
    unfold PCAP.validate
    constructor
    · intro h
      simp only [List.nil_append] at h
      split_ifs at h <;>
        first
        | (refine ⟨?_, ?_, ?_, ?_, ?_, ?_⟩ <;> omega)
        | (simp at h)
    · rintro ⟨h1, h2, h3, h4, h5, h6⟩
      have e1 : ¬ p.Sockbuf < 1024 := by omega
      have e2 : ¬ p.Sockbuf > 100 * 1024 * 1024 := by omega
      have e3 : ¬ (p.SnapLen < 256 ∨ p.SnapLen > 65536) := by omega
      have e4 : ¬ (p.DSCP < 0 ∨ p.DSCP > 63) := by omega
      simp only [e1, e2, e3, e4, if_false]
  exact ⟨hiff, fun h _ => hiff.mpr h, by decide, by decide⟩

/-- Witness of C19: the buffer of 3000 bytes with the default snapshot length. -/
theorem validate_ranges_witness : PCAP.validate ⟨3000, false, 1600, 0⟩ = [] :=
  (validate_ranges ⟨3000, false, 1600, 0⟩).2.1 (by decide) (by decide)

/-- C20: PCAP defaults by role. `setDefaults` sets a zero `Sockbuf` to 32 MiB
for the role `server` and to 16 MiB for any other role, and a zero `SnapLen`
to 1600; it keeps a non-zero `Sockbuf`, a non-zero `SnapLen`, `Promisc` and
`DSCP`; the zero-valued config becomes (32 MiB or 16 MiB, false, 1600, 0);
`setDefaults` is idempotent; and the defaulted zero-valued config passes
`validate` with no error for every role. -/
theorem setDefaults_by_role (p : PCAP) (role : String) :
    (p.Sockbuf = 0 → role = "server" → (p.setDefaults role).Sockbuf = 32 * 1024 * 1024) ∧
    (p.Sockbuf = 0 → role ≠ "server" → (p.setDefaults role).Sockbuf = 16 * 1024 * 1024) ∧
    (p.SnapLen = 0 → (p.setDefaults role).SnapLen = 1600) ∧
    (p.Sockbuf ≠ 0 → (p.setDefaults role).Sockbuf = p.Sockbuf) ∧
    (p.SnapLen ≠ 0 → (p.setDefaults role).SnapLen = p.SnapLen) ∧
    (p.setDefaults role).Promisc = p.Promisc ∧
    (p.setDefaults role).DSCP = p.DSCP ∧
    PCAP.setDefaults ⟨0, false, 0, 0⟩ "server" = ⟨32 * 1024 * 1024, false, 1600, 0⟩ ∧
    (role ≠ "server" →
      PCAP.setDefaults ⟨0, false, 0, 0⟩ role = ⟨16 * 1024 * 1024, false, 1600, 0⟩) ∧
    (p.setDefaults role).setDefaults role = p.setDefaults role ∧
    (PCAP.setDefaults ⟨0, false, 0, 0⟩ role).validate = [] := by
  have hz : (32 * 1024 * 1024 : Int) ≠ 0 := by decide
  have hz2 : (16 * 1024 * 1024 : Int) ≠ 0 := by decide
  have hz3 : (1600 : Int) ≠ 0 := by decide
  refine ⟨?_, ?_, ?_, ?_, ?_, ?_, ?_, ?_, ?_, ?_, ?_⟩
  · intro h1 h2
    unfold PCAP.setDefaults
    simp only [h1, h2, if_true]
    split <;> rfl
  · intro h1 h2
    unfold PCAP.setDefaults
    simp only [h1, h2, if_true, if_false]
    split <;> rfl
  · intro h1
    unfold PCAP.setDefaults
    by_cases hs : p.Sockbuf = 0 <;> by_cases hr : role = "server" <;> simp [hs, hr, h1]
  · intro h1
    unfold PCAP.setDefaults
    simp only [h1, if_false]
    split <;> rfl
  · intro h1
    unfold PCAP.setDefaults
    by_cases hs : p.Sockbuf = 0 <;> by_cases hr : role = "server" <;> simp [hs, hr, h1]
  · unfold PCAP.setDefaults
    by_cases hs : p.Sockbuf = 0 <;> by_cases hr : role = "server" <;>
      by_cases hl : p.SnapLen = 0 <;> simp [hs, hr, hl]
  · unfold PCAP.setDefaults
    by_cases hs : p.Sockbuf = 0 <;> by_cases hr : role = "server" <;>
      by_cases hl : p.SnapLen = 0 <;> simp [hs, hr, hl]
  · simp [PCAP.setDefaults]
  · intro hr
    simp [PCAP.setDefaults, hr]
  · unfold PCAP.setDefaults
    by_cases hs : p.Sockbuf = 0 <;> by_cases hr : role = "server" <;>
      by_cases hl : p.SnapLen = 0 <;> simp [hs, hr, hl]
  · by_cases hr : role = "server"
    · subst hr
      simp [PCAP.setDefaults, PCAP.validate]
    · simp [PCAP.setDefaults, PCAP.validate, hr]

/-- Witness of C20: the zero-valued config of a client. -/
theorem setDefaults_by_role_witness :
    PCAP.setDefaults ⟨0, false, 0, 0⟩ "client" = ⟨16 * 1024 * 1024, false, 1600, 0⟩ :=
  (setDefaults_by_role ⟨0, false, 0, 0⟩ "client").2.2.2.2.2.2.2.2.1 (by decide)

/-! ## Lemmas on the probe and replacement policy -/

/-- The item `newConn` picks: the least-loaded candidate, or the round-robin
one when there is no candidate. -/
theorem newConn_pick (env : DialEnv) (it : Iterator) (res : NewConnResult)
    (h : newConn env it = .ok res) :
    ∃ (tc : timedConn) (c : Conn), it.Items[res.chosen]? = some tc ∧ tc.conn = some c ∧
      res.iter.cursor - it.cursor ≤ 1 ∧
      ((c.pingFails = true ∧
          res.iter.Items = it.Items.set res.chosen
            ⟨(match env.created with
              | some conn => some conn
              | none => some { c with closed := true }), env.now + 300⟩ ∧
          res.conn = (match env.created with
              | some conn => some conn
              | none => some { c with closed := true }) ∧
          res.closedConns = [{ c with closed := true }] ∧ res.creates = 1) ∨
        (c.pingFails = false ∧ res.iter.Items = it.Items ∧ res.conn = some c ∧
          res.closedConns = [] ∧ res.creates = 0)) := by
  have hpick : ∀ (i : Nat) (tc : timedConn) (it1 : Iterator),
      (match (leastLoaded it.Items 0 none maxInt).1 with
        | some (i, tc) => some (i, tc, it)
        | none => it.Next) = some (i, tc, it1) →
      it.Items[i]? = some tc ∧ it1.Items = it.Items ∧ it1.cursor - it.cursor ≤ 1 := by
    intro i tc it1 hp
    split at hp
    · next i0 tc0 hl =>
      simp only [Option.some.injEq, Prod.mk.injEq] at hp
      obtain ⟨rfl, rfl, rfl⟩ := hp
      obtain ⟨-, hb⟩ := leastLoaded_spec it.Items 0 none maxInt
      rcases hb with hb | ⟨k, tck, ck, hk, hik, -, -, -⟩
      · rw [hb] at hl; cases hl
      · rw [hk] at hl
        simp only [Nat.zero_add, Option.some.injEq, Prod.mk.injEq] at hl
        obtain ⟨rfl, rfl⟩ := hl
        exact ⟨hik, rfl, by omega⟩
    · unfold Iterator.Next at hp
      split at hp
      · cases hp
      · next tc0 hget =>
        simp only [Option.some.injEq, Prod.mk.injEq] at hp
        obtain ⟨rfl, rfl, rfl⟩ := hp
        exact ⟨hget, rfl, by simp⟩
  unfold newConn at h
  simp only at h
  split at h
  · cases h
  · next i bestTC it1 hp =>
    obtain ⟨hget, hitems, hcur⟩ := hpick i bestTC it1 hp
    split at h
    · cases h
    · next c hc =>
      split at h
      · next hping =>
        simp only [Except.ok.injEq] at h
        subst h
        refine ⟨bestTC, c, hget, hc, hcur, Or.inl ⟨hping, ?_, rfl, rfl, rfl⟩⟩
        rw [hitems]
      · next hping =>
        simp only [Except.ok.injEq] at h
        subst h
        exact ⟨bestTC, c, hget, hc, hcur, Or.inr ⟨by simpa using hping, hitems, rfl, rfl, rfl⟩⟩


/-! ## Lemmas on the telemetry reporter -/

theorem mem_logIf (c : Prop) [Decidable c] (line x : LogLine) (log : List LogLine) :
    x ∈ logIf c line log ↔ (x ∈ log ∨ (c ∧ x = line)) := by
  unfold logIf
  split <;> simp [*]

theorem report_saturation (s : StatsReporter) (env : ReportEnv) :
    (LogLine.alert .send_saturated ∈ (s.report env).2 ↔ env.curr.RingBufferSndBuffer > 512) ∧
    (LogLine.alert .recv_saturated ∈ (s.report env).2 ↔ env.curr.RingBufferRcvQueue > 256) := by
  constructor <;> simp [StatsReporter.report, mem_logIf]

/-! ## The dispatcher: probe and replacement -/

/-- C21, as amended: the probe-failure replacement policy of `newConn`. When
the probe of the chosen connection fails, `Close()` is called on the old
connection, `createConn()` is called exactly once, and the item's `expire`
becomes `now + 300` s whether or not the re-create succeeds; when it succeeds
the item's handle becomes the new connection, and when it fails the item
keeps its old, now closed, handle, which is the one returned. When the probe
succeeds the pool is unchanged, nothing is closed and nothing is created. -/
theorem newConn_replacement_policy (env : DialEnv) (it : Iterator) (res : NewConnResult)
    (h : newConn env it = .ok res) :
    ∃ (tc : timedConn) (c : Conn), it.Items[res.chosen]? = some tc ∧ tc.conn = some c ∧
      (c.pingFails = true →
        res.closedConns = [{ c with closed := true }] ∧ res.creates = 1 ∧
        (∀ n : Conn, env.created = some n →
          res.iter.Items = it.Items.set res.chosen ⟨some n, env.now + 300⟩ ∧
          res.conn = some n) ∧
        (env.created = none →
          res.iter.Items =
            it.Items.set res.chosen ⟨some { c with closed := true }, env.now + 300⟩ ∧
          res.conn = some { c with closed := true })) ∧
      (c.pingFails = false →
        res.iter.Items = it.Items ∧ res.conn = some c ∧ res.closedConns = [] ∧
        res.creates = 0) := by
  obtain ⟨tc, c, hget, hc, -, hcase⟩ := newConn_pick env it res h
  refine ⟨tc, c, hget, hc, ?_, ?_⟩
  · intro hp
    rcases hcase with ⟨-, hitems, hconn, hclosed, hcreates⟩ | ⟨hnp, -⟩
    · refine ⟨hclosed, hcreates, ?_, ?_⟩
      · intro n hn
        rw [hn] at hitems hconn
        exact ⟨hitems, hconn⟩
      · intro hn
        rw [hn] at hitems hconn
        exact ⟨hitems, hconn⟩
    · rw [hp] at hnp
      cases hnp
  · intro hp
    rcases hcase with ⟨hnp, -⟩ | ⟨-, hrest⟩
    · rw [hp] at hnp
      cases hnp
    · exact hrest

/-- Witness of C21, as amended: a pool of one connection whose probe fails,
with a re-create that succeeds at time 1000: one `createConn()` call, and the
item holds the new connection with `expire = 1300`. -/
theorem newConn_replacement_policy_witness :
    ∃ res : NewConnResult,
      newConn ⟨1000, some ⟨9, 0, false, false⟩⟩ ⟨[⟨some ⟨0, 3, true, false⟩, 7⟩], 0⟩ =
        .ok res ∧
      res.creates = 1 ∧ res.closedConns = [⟨0, 3, true, true⟩] ∧
      res.iter.Items = [⟨some ⟨9, 0, false, false⟩, 1300⟩] := by
  have hnc : newConn ⟨1000, some ⟨9, 0, false, false⟩⟩
      ⟨[⟨some ⟨0, 3, true, false⟩, 7⟩], 0⟩ =
      .ok ⟨⟨[⟨some ⟨9, 0, false, false⟩, 1300⟩], 0⟩, 0, some ⟨9, 0, false, false⟩,
        [⟨0, 3, true, true⟩], 1⟩ := rfl
  obtain ⟨tc, c, hget, hc, hfail, -⟩ := newConn_replacement_policy _ _ _ hnc
  simp only [List.getElem?_cons_zero, Option.some.injEq] at hget
  subst hget
  simp only [Option.some.injEq] at hc
  subst hc
  obtain ⟨hcl, hcr, hsome, -⟩ := hfail rfl
  exact ⟨_, hnc, hcr, hcl, (hsome _ rfl).1⟩

/-- C21, as stated, fails: in a pool of one connection with `expire = 7` whose
probe fails, with a re-create that fails at time 1000, the item is left with
its old handle, closed but not absent, and with `expire = 1300`. -/
theorem newConn_replacement_policy_counterexample :
    newConn ⟨1000, none⟩ ⟨[⟨some ⟨0, 3, true, false⟩, 7⟩], 0⟩ =
      .ok ⟨⟨[⟨some ⟨0, 3, true, true⟩, 1300⟩], 0⟩, 0, some ⟨0, 3, true, true⟩,
        [⟨0, 3, true, true⟩], 1⟩ ∧
    (⟨some ⟨0, 3, true, true⟩, 1300⟩ : timedConn).conn ≠ none ∧
    (⟨some ⟨0, 3, true, true⟩, 1300⟩ : timedConn).expire ≠ 7 :=
  ⟨rfl, by decide, by decide⟩

/-! ## The autoscaler: scale-up excludes scale-down -/

/-- C22: scale-up and scale-down are mutually exclusive. A `scaleConnections`
tick that dials removes nothing, and a tick that removes an item has not
dialed and leaves the pool one shorter; whenever every present connection has
at least 64 streams, with or without room below `maxConns`, nothing is
removed and every item is still at its index after the tick. -/
theorem scale_up_excludes_scale_down (env : ScaleEnv) (c : Client) :
    ((scaleConnections env c).dialed = true → (scaleConnections env c).removed = none) ∧
    (∀ i : Nat, (scaleConnections env c).removed = some i →
      (scaleConnections env c).dialed = false ∧
      (scaleConnections env c).client.iter.Items.length + 1 = c.iter.Items.length) ∧
    ((∀ tc ∈ c.iter.Items, ∀ conn : Conn, tc.conn = some conn → 64 ≤ conn.numStreams) →
      (scaleConnections env c).removed = none ∧
      ∀ (j : Nat) (tc : timedConn), c.iter.Items[j]? = some tc →
        (scaleConnections env c).client.iter.Items[j]? = some tc) ∧
    (((∀ tc ∈ c.iter.Items, ∀ conn : Conn, tc.conn = some conn → 64 ≤ conn.numStreams) ∧
        (c.iter.Items.length : Int) < c.maxConns) →
      ∀ i : Nat, c.minConns ≤ (i : Int) → (scaleConnections env c).removed ≠ some i) := by
  have hiff := allOverloaded_iff c.iter.Items
  simp only [maxStreamsPerConn] at hiff
  have hover : (∀ tc ∈ c.iter.Items, ∀ conn : Conn, tc.conn = some conn →
      64 ≤ conn.numStreams) → (scaleConnections env c).removed = none ∧
      ∀ (j : Nat) (tc : timedConn), c.iter.Items[j]? = some tc →
        (scaleConnections env c).client.iter.Items[j]? = some tc := by
    intro hall
    have hao : allOverloaded c.iter.Items = true := hiff.mpr hall
    by_cases hup : allOverloaded c.iter.Items = true ∧ (c.iter.Items.length : Int) < c.maxConns
    · obtain ⟨-, hrem, hnone, hsome⟩ := scaleConnections_up env c hup
      refine ⟨hrem, fun j tc hj => ?_⟩
      cases hd : env.dial with
      | none => rw [hnone hd]; exact hj
      | some tcn =>
        rw [hsome tcn hd, List.getElem?_append_left]
        · exact hj
        · by_contra hlt
          rw [List.getElem?_eq_none (by omega)] at hj
          cases hj
    · rw [scaleConnections_no_up env c hup]
      have hrem : (scaleDown c c.iter.Items c.iter.Items.length false).removed = none := by
        cases hr : (scaleDown c c.iter.Items c.iter.Items.length false).removed with
        | none => rfl
        | some i =>
          exact absurd ((scaleDown_removed c i).1.mp hr).2
            (scanIdle_allOverloaded c.iter.Items c.minConns hao i)
      refine ⟨hrem, fun j tc hj => ?_⟩
      rw [(scaleDown_removed c 0).2.2.1 hrem]
      exact hj
  have hrem : ∀ i : Nat, (scaleConnections env c).removed = some i →
      ¬ (allOverloaded c.iter.Items = true ∧ (c.iter.Items.length : Int) < c.maxConns) := by
    intro i hi hup
    rw [(scaleConnections_up env c hup).2.1] at hi
    cases hi
  refine ⟨?_, ?_, hover, ?_⟩
  · intro hd
    by_cases hup : allOverloaded c.iter.Items = true ∧ (c.iter.Items.length : Int) < c.maxConns
    · exact (scaleConnections_up env c hup).2.1
    · rw [scaleConnections_no_up env c hup, (scaleDown_removed c 0).2.2.2] at hd
      exact absurd hd Bool.false_ne_true
  · intro i hi
    have hup := hrem i hi
    rw [scaleConnections_no_up env c hup] at hi ⊢
    have hlt : i < c.iter.Items.length :=
      ((scanIdle_found_iff c.iter.Items c.minConns i).mp ((scaleDown_removed c i).1.mp hi).2).2.1
    rw [(scaleDown_removed c i).2.1 hi]
    refine ⟨(scaleDown_removed c i).2.2.2, ?_⟩
    simp only [List.length_append, List.length_take, List.length_drop]
    omega
  · intro hcond i _ hi
    rw [(hover hcond.1).1] at hi
    cases hi

/-- Witness of C22: a pool of two connections with 64 streams each, below
`maxConns = 4`: the tick dials and removes nothing. -/
theorem scale_up_excludes_scale_down_witness :
    (scaleConnections ⟨some (liveConn 0)⟩ ⟨⟨[liveConn 64, liveConn 64], 0⟩, 2, 4⟩).dialed =
      true ∧
    (scaleConnections ⟨some (liveConn 0)⟩ ⟨⟨[liveConn 64, liveConn 64], 0⟩, 2, 4⟩).removed =
      none :=
  ⟨by decide,
    (scale_up_excludes_scale_down ⟨some (liveConn 0)⟩
      ⟨⟨[liveConn 64, liveConn 64], 0⟩, 2, 4⟩).1 (by decide)⟩

/-! ## The window auto-tuner: idle tick and pushes -/

/-- C23: the idle tick is a no-op and pushes are change-driven. For a tuner
within its bounds and segment counters below `2^50`, where the `float64` rate
test of `tune` is exact, a `tune` tick with retransmission rate at most 0.05
and `sent_delta + recv_delta = 0` leaves `curSnd` and `curRcv` unchanged and
does not call `SetWindowSize`; in every tick `SetWindowSize` is called, once
and with the new pair, iff `curSnd` or `curRcv` differs from its value before
the tick, and `lastSent` and `lastRecv` become the counters of the snapshot. -/
theorem tune_idle_and_push (t : AutoTuner) (snap : Snmp) :
    (t.InBounds → snap.InFloatRange → retransRate snap ≤ 0.05 → totalDelta t snap = 0 →
      (t.tune snap).tuner.curSnd = t.curSnd ∧ (t.tune snap).tuner.curRcv = t.curRcv ∧
      (t.tune snap).pushed = none) ∧
    ((t.tune snap).pushed ≠ none ↔
      ((t.tune snap).tuner.curSnd ≠ t.curSnd ∨ (t.tune snap).tuner.curRcv ≠ t.curRcv)) ∧
    (∀ p : Int × Int, (t.tune snap).pushed = some p →
      p = ((t.tune snap).tuner.curSnd, (t.tune snap).tuner.curRcv)) ∧
    (t.tune snap).tuner.lastSent = snap.BytesSent ∧
    (t.tune snap).tuner.lastRecv = snap.BytesReceived ∧
    (t.tune snap).tuner.maxSnd = t.maxSnd ∧ (t.tune snap).tuner.maxRcv = t.maxRcv := by
  have hpush : (t.tune snap).pushed =
      if (t.tune snap).tuner.curSnd ≠ t.curSnd ∨ (t.tune snap).tuner.curRcv ≠ t.curRcv then
        some ((t.tune snap).tuner.curSnd, (t.tune snap).tuner.curRcv)
      else none := rfl
  have hiff : (t.tune snap).pushed ≠ none ↔
      ((t.tune snap).tuner.curSnd ≠ t.curSnd ∨ (t.tune snap).tuner.curRcv ≠ t.curRcv) := by
    rw [hpush]
    split <;> simp [*]
  refine ⟨?_, hiff, ?_, rfl, rfl, rfl, rfl⟩
  · intro hb _ hrate hd
    obtain ⟨g1, g2⟩ := (tune_raw t snap).2.2 (not_lt.mpr hrate) hd
    obtain ⟨b1, b2, b3, b4⟩ := hb
    have hs : (t.tune snap).tuner.curSnd = t.curSnd := by
      rw [tune_tuner]
      simp only [g1, clamp]
      rw [if_neg (not_lt.mpr b1), if_neg (not_lt.mpr b2)]
    have hr : (t.tune snap).tuner.curRcv = t.curRcv := by
      rw [tune_tuner]
      simp only [g2, clamp]
      rw [if_neg (not_lt.mpr b3), if_neg (not_lt.mpr b4)]
    refine ⟨hs, hr, ?_⟩
    by_contra hne
    rcases hiff.mp hne with h | h
    · exact h hs
    · exact h hr
  · intro p hp
    rw [hpush] at hp
    split at hp
    · simp only [Option.some.injEq] at hp
      exact hp.symm
    · cases hp

/-- Witness of C23: an idle tick on the windows 512 and 512 under the maxima
1024 pushes nothing. -/
theorem tune_idle_and_push_witness :
    ((⟨1024, 1024, 512, 512, 7, 9⟩ : AutoTuner).tune ⟨7, 9, 0, 100⟩).pushed = none ∧
    ((⟨1024, 1024, 512, 512, 7, 9⟩ : AutoTuner).tune ⟨7, 9, 0, 100⟩).tuner.curSnd = 512 :=
  ⟨((tune_idle_and_push ⟨1024, 1024, 512, 512, 7, 9⟩ ⟨7, 9, 0, 100⟩).1 (by decide)
      (by decide) (by norm_num [retransRate]) (by decide)).2.2,
    ((tune_idle_and_push ⟨1024, 1024, 512, 512, 7, 9⟩ ⟨7, 9, 0, 100⟩).1 (by decide)
      (by decide) (by norm_num [retransRate]) (by decide)).1⟩

/-! ## The telemetry reporter: saturation alerts -/

/-- C24, as amended: the saturation rules of the telemetry reporter. In every
`report` tick the `send_saturated` alert is logged iff the send-buffer ring
counter `RingBufferSndBuffer` of the current snapshot is above 512, whatever
the send-queue counter `RingBufferSndQueue` is, and the `recv_saturated`
alert is logged iff the receive-queue counter `RingBufferRcvQueue` is above
256; neither depends on the reporter's previous state. -/
theorem report_saturation_rules (s : StatsReporter) (env : ReportEnv) :
    (LogLine.alert .send_saturated ∈ (s.report env).2 ↔ env.curr.RingBufferSndBuffer > 512) ∧
    (LogLine.alert .recv_saturated ∈ (s.report env).2 ↔ env.curr.RingBufferRcvQueue > 256) ∧
    (∀ s1 : StatsReporter,
      (LogLine.alert .send_saturated ∈ (s1.report env).2 ↔
        LogLine.alert .send_saturated ∈ (s.report env).2) ∧
      (LogLine.alert .recv_saturated ∈ (s1.report env).2 ↔
        LogLine.alert .recv_saturated ∈ (s.report env).2)) ∧
    (∀ q : Nat,
      (LogLine.alert .send_saturated ∈
          (s.report { env with curr := { env.curr with RingBufferSndQueue := q } }).2 ↔
        LogLine.alert .send_saturated ∈ (s.report env).2)) ∧
    (s.report env).1.prevSnmp = env.curr := by
  refine ⟨(report_saturation s env).1, (report_saturation s env).2, fun s1 => ⟨?_, ?_⟩,
    fun q => ?_, rfl⟩
  · rw [(report_saturation s1 env).1, (report_saturation s env).1]
  · rw [(report_saturation s1 env).2, (report_saturation s env).2]
  · rw [(report_saturation s _).1, (report_saturation s env).1]

/-- C24, as stated, fails: with the send-queue counter at 1000, above 512, and
the send-buffer counter at 0, no `send_saturated` alert is logged; with the
send-queue counter at 0 and the send-buffer counter at 513 it is logged. -/
theorem report_saturation_rules_counterexample :
    ({ zeroSnmp with RingBufferSndQueue := 1000 } : KcpSnmp).RingBufferSndQueue > 512 ∧
    LogLine.alert .send_saturated ∉
      (exampleReporter.report
        ⟨30, { zeroSnmp with RingBufferSndQueue := 1000 }, none, 10⟩).2 ∧
    ¬ (({ zeroSnmp with RingBufferSndBuffer := 513 } : KcpSnmp).RingBufferSndQueue > 512) ∧
    LogLine.alert .send_saturated ∈
      (exampleReporter.report
        ⟨30, { zeroSnmp with RingBufferSndBuffer := 513 }, none, 10⟩).2 := by
  refine ⟨by decide, ?_, by decide, ?_⟩
  · rw [(report_saturation _ _).1]
    decide
  · rw [(report_saturation _ _).1]
    decide

/-! ## Lemmas on what the decoder can return -/

theorem readFlags_length (n i : Nat) (arr : List TCPF) (r : List Byte) :
    (readFlags i n arr r).1.length = arr.length := by
  induction n generalizing i arr r with
  | zero => rfl
  | succ n ih =>
    match r with
    | [] => rfl
    | [_] => rfl
    | hi :: lo :: r1 =>
      simp only [readFlags, readUint16]
      rw [ih]
      simp

theorem readFull_ok_length (n : Nat) (r r1 bs : List Byte) (h : readFull n r = (.ok bs, r1)) :
    bs.length = n := by
  unfold readFull at h
  split at h
  · next hle =>
    simp only [Prod.mk.injEq, Except.ok.injEq] at h
    rw [← h.1, List.length_take]
    omega
  · split at h <;> simp at h

theorem readUint16_ok_lt (r r1 : List Byte) (v : Nat) (h : readUint16 r = (.ok v, r1)) :
    v < 65536 := by
  match r, h with
  | [], h => simp [readUint16] at h
  | [_], h => simp [readUint16] at h
  | hi :: lo :: r2, h =>
    simp only [readUint16, Prod.mk.injEq, Except.ok.injEq] at h
    have h1 := hi.isLt
    have h2 := lo.isLt
    omega

theorem readAddr_valid (r r1 : List Byte) (a : Option Addr) (h : readAddr r = (.ok a, r1)) :
    ValidAddr a := by
  unfold readAddr at h
  split at h
  · simp at h
  · next present r2 h1 =>
    split at h
    · simp only [Prod.mk.injEq, Except.ok.injEq] at h
      rw [← h.1]
      trivial
    · split at h
      · simp at h
      · next hostLen r3 h2 =>
        simp only at h
        split at h
        · simp at h
        · next host r4 h3 =>
          split at h
          · simp at h
          · next port r5 h4 =>
            simp only [Prod.mk.injEq, Except.ok.injEq] at h
            rw [← h.1]
            have hp := readUint16_ok_lt _ _ _ h4
            have hl : host.length ≤ 255 := by
              have hlt := hostLen.isLt
              split at h3
              · rw [readFull_ok_length _ _ _ _ h3]
                omega
              · simp only [Prod.mk.injEq, Except.ok.injEq] at h3
                rw [← h3.1]
                simp
            refine ⟨hl, ?_, ?_⟩
            · exact Int.natCast_nonneg port
            · show (port : Int) ≤ 65535
              omega

theorem Read_zero_decodable (r : List Byte) :
    ValidAddr (Proto.Read Proto.zero r).p.Addr ∧ (Proto.Read Proto.zero r).p.TCPF.length ≤ 255 := by
  have hz : ValidAddr Proto.zero.Addr ∧ Proto.zero.TCPF.length ≤ 255 := by
    constructor
    · trivial
    · simp [Proto.zero]
  unfold Proto.Read
  split
  · exact hz
  · next t r1 h1 =>
    simp only
    split
    · exact hz
    · split
      · split
        · exact hz
        · next count r2 h2 =>
          refine ⟨hz.1, ?_⟩
          simp only
          rw [readFlags_length, List.length_replicate]
          have := count.isLt
          omega
      · split
        · split
          · exact hz
          · next addr r2 h2 => exact ⟨readAddr_valid _ _ _ h2, hz.2⟩
        · exact hz

theorem writeAddr_any (host : List Byte) (port : Int) :
    writeAddr (some ⟨host, port⟩) =
      u8 1 :: u8 host.length ::
        ((if host.length % 256 = 0 then [] else host) ++ putUint16 (toUint16 port)) := by
  by_cases hz : host.length % 256 = 0
  · simp [writeAddr, u8_val, hz]
  · have hpos : 0 < host.length % 256 := Nat.pos_of_ne_zero hz
    simp [writeAddr, u8_val, hz, hpos]

theorem toUint16_emod (port : Int) : ((toUint16 port : Nat) : Int) = port % 65536 := by
  unfold toUint16
  omega

/-! ## The codec: oversize fields -/

/-- C25, as amended: oversize fields are not rejected by the encoder.
`Proto.Write` returns no error for any address and any flag list; it writes
the host-length byte as `len mod 256`, the count byte as `len mod 256` and the
port as `port mod 65536`; it emits every flag word, and every host byte
unless `len(host) mod 256 = 0`, in which case it emits no host byte; so for a
host longer than 255 bytes, a port outside `0..65535` or more than 255 flag
sets, `Proto.Read` never gives back the original frame. A 256-byte host is
written with host length 0 and no host byte, and decodes to an empty host
with the original port. -/
theorem write_oversize (t : PType) (ht : t = PTCP ∨ t = PUDP) (host : List Byte) (port : Int)
    (fs : List TCPF) (a : Option Addr) :
    (Proto.Write ⟨t, some ⟨host, port⟩, fs⟩).err = none ∧
    (Proto.Write ⟨PTCPF, a, fs⟩).err = none ∧
    (Proto.Write ⟨t, some ⟨host, port⟩, fs⟩).out =
      [t, 0x01, u8 host.length] ++ (if host.length % 256 = 0 then [] else host) ++
        [u8 (toUint16 port / 256), u8 (toUint16 port)] ∧
    (u8 host.length).val = host.length % 256 ∧
    ((toUint16 port : Nat) : Int) = port % 65536 ∧
    (Proto.Write ⟨PTCPF, a, fs⟩).out =
      [0x03, u8 fs.length] ++
        fs.flatMap (fun f => [u8 (encodeTCPF f / 256), u8 (encodeTCPF f % 256)]) ∧
    (u8 fs.length).val = fs.length % 256 ∧
    (Proto.Write ⟨PTCPF, a, fs⟩).out.length = 2 + 2 * fs.length ∧
    ((255 < host.length ∨ port < 0 ∨ 65535 < port) →
      Proto.Read Proto.zero (Proto.Write ⟨t, some ⟨host, port⟩, fs⟩).out ≠
        ⟨⟨t, some ⟨host, port⟩, fs⟩, [], none⟩ ∧
      ∀ r : List Byte, (Proto.Read Proto.zero r).p ≠ ⟨t, some ⟨host, port⟩, fs⟩) ∧
    (255 < fs.length →
      Proto.Read Proto.zero (Proto.Write ⟨PTCPF, a, fs⟩).out ≠ ⟨⟨PTCPF, a, fs⟩, [], none⟩ ∧
      ∀ r : List Byte, (Proto.Read Proto.zero r).p ≠ ⟨PTCPF, a, fs⟩) ∧
    (host.length = 256 → 0 ≤ port → port ≤ 65535 →
      (Proto.Write ⟨t, some ⟨host, port⟩, fs⟩).out =
        [t, 0x01, 0x00, u8 (port.toNat / 256), u8 (port.toNat % 256)] ∧
      Proto.Read Proto.zero (Proto.Write ⟨t, some ⟨host, port⟩, fs⟩).out =
        ⟨⟨t, some ⟨[], port⟩, []⟩, [], none⟩) := by
  have hw : Proto.Write ⟨t, some ⟨host, port⟩, fs⟩ =
      ⟨t :: writeAddr (some ⟨host, port⟩), none⟩ := by
    rcases ht with ht | ht <;> subst ht <;> rfl
  have hwf : Proto.Write ⟨PTCPF, a, fs⟩ = ⟨PTCPF :: u8 fs.length :: writeFlags fs, none⟩ := rfl
  have hout : (Proto.Write ⟨t, some ⟨host, port⟩, fs⟩).out =
      [t, 0x01, u8 host.length] ++ (if host.length % 256 = 0 then [] else host) ++
        [u8 (toUint16 port / 256), u8 (toUint16 port)] := by
    rw [hw, writeAddr_any]
    simp only [putUint16, List.cons_append, List.nil_append, List.append_assoc]
    rfl
  have haddr : (255 < host.length ∨ port < 0 ∨ 65535 < port) →
      ∀ r : List Byte, (Proto.Read Proto.zero r).p ≠ ⟨t, some ⟨host, port⟩, fs⟩ := by
    intro hbad r heq
    have hv := (Read_zero_decodable r).1
    rw [heq] at hv
    obtain ⟨h1, h2, h3⟩ := hv
    simp only at h1 h2 h3
    omega
  have hflags : 255 < fs.length →
      ∀ r : List Byte, (Proto.Read Proto.zero r).p ≠ ⟨PTCPF, a, fs⟩ := by
    intro hbad r heq
    have hv := (Read_zero_decodable r).2
    rw [heq] at hv
    simp only at hv
    omega
  refine ⟨by rw [hw], by rw [hwf], hout, u8_val _, toUint16_emod port, ?_, u8_val _, ?_,
    ?_, ?_, ?_⟩
  · rw [hwf, writeFlags_eq_flatMap]
    rfl
  · rw [hwf]
    simp only [List.length_cons, writeFlags_length]
    omega
  · intro hbad
    refine ⟨fun heq => ?_, haddr hbad⟩
    exact haddr hbad _ (by rw [heq])
  · intro hbad
    refine ⟨fun heq => ?_, hflags hbad⟩
    exact hflags hbad _ (by rw [heq])
  · intro hlen h0 h1
    have hp : toUint16 port = port.toNat := by unfold toUint16; omega
    have hz : host.length % 256 = 0 := by rw [hlen]
    have hu : u8 host.length = 0x00 := by rw [hlen]; rfl
    have hout2 : (Proto.Write ⟨t, some ⟨host, port⟩, fs⟩).out =
        [t, 0x01, 0x00, u8 (port.toNat / 256), u8 (port.toNat % 256)] := by
      rw [hout, if_pos hz, hu, hp, u8_mod]
      rfl
    have hsame : (Proto.Write ⟨t, some ⟨host, port⟩, fs⟩).out =
        (Proto.Write ⟨t, some ⟨[], port⟩, []⟩).out := by
      rw [hout2]
      have hw0 : Proto.Write ⟨t, some ⟨[], port⟩, []⟩ =
          ⟨t :: writeAddr (some ⟨[], port⟩), none⟩ := by
        rcases ht with ht | ht <;> subst ht <;> rfl
      rw [hw0, writeAddr_any]
      simp only [putUint16, hp, u8_mod, List.length_nil, Nat.zero_mod, if_true, List.nil_append]
      rfl
    refine ⟨hout2, ?_⟩
    rw [hsame]
    have hvf : ValidFrame ⟨t, some ⟨[], port⟩, []⟩ :=
      Or.inr (Or.inr ⟨ht, ⟨by simp, h0, h1⟩, rfl⟩)
    simpa using Read_Write_append ⟨t, some ⟨[], port⟩, []⟩ hvf []

/-- Witness of C25, as amended: a TCP frame for a host of 256 bytes `A` and
port 80 is written as `04 01 00 00 50`. -/
theorem write_oversize_witness :
    (Proto.Write ⟨PTCP, some ⟨List.replicate 256 0x41, 80⟩, []⟩).out =
      [0x04, 0x01, 0x00, 0x00, 0x50] :=
  ((write_oversize PTCP (Or.inl rfl) (List.replicate 256 0x41) 80 [] none).2.2.2.2.2.2.2.2.2.2
    (List.length_replicate 256 _) (by decide) (by decide)).1

/-- C25, as stated, fails: a TCP frame for a host of 256 bytes `A` and port 80
is written as the 5 bytes `04 01 00 00 50`, with no host byte behind the host
length 0, and decodes to an empty host with the port 80, not with a port made
of the first two host bytes. -/
theorem write_oversize_counterexample :
    (List.replicate 256 (0x41 : Byte)).length = 256 ∧
    (Proto.Write ⟨PTCP, some ⟨List.replicate 256 0x41, 80⟩, []⟩).out =
      [0x04, 0x01, 0x00, 0x00, 0x50] ∧
    (Proto.Write ⟨PTCP, some ⟨List.replicate 256 0x41, 80⟩, []⟩).out ≠
      [0x04, 0x01, 0x00] ++ List.replicate 256 0x41 ++ [0x00, 0x50] ∧
    Proto.Read Proto.zero (Proto.Write ⟨PTCP, some ⟨List.replicate 256 0x41, 80⟩, []⟩).out =
      ⟨⟨PTCP, some ⟨[], 80⟩, []⟩, [], none⟩ ∧
    (80 : Int) ≠ 0x41 * 256 + 0x41 := by
  have hout : (Proto.Write ⟨PTCP, some ⟨List.replicate 256 0x41, 80⟩, []⟩).out =
      [0x04, 0x01, 0x00, 0x00, 0x50] := by
    have hw : Proto.Write ⟨PTCP, some ⟨List.replicate 256 0x41, 80⟩, []⟩ =
        ⟨PTCP :: writeAddr (some ⟨List.replicate 256 0x41, 80⟩), none⟩ := rfl
    rw [hw, writeAddr_any]
    simp only [List.length_replicate]
    decide
  refine ⟨List.length_replicate 256 _, hout, ?_, ?_, by decide⟩
  · rw [hout]
    intro h
    have := congrArg List.length h
    rw [List.length_append, List.length_append, List.length_replicate] at this
    simp only [List.length_cons, List.length_nil] at this
    omega
  · rw [hout]
    decide

end Paqet
